import Mathlib

/-!
# apple-video: the H.264 Annex-B demultiplexer of `main.c`

A shallow embedding of `src/main.c`.  The input file is a list of bytes
(`List Nat`), a pointer into the file buffer is an offset into that list, and
the VideoToolbox / CoreMedia calls are functions returning an `OSStatus`.
Two effects that C leaves undefined are parameters: the byte read one past the
buffer (`past`) and the second `fclose` of the input stream (`FcloseAgain`).
-/

namespace AppleVideo

/-! ## Constants and small helpers -/

/-- The type `OSStatus` of the Apple frameworks. -/
abbrev OSStatus := Int

/-- The status `noErr`. -/
def noErr : OSStatus := 0

/-- The constant `#define NAL_SPS 0x07`. -/
def NAL_SPS : Nat := 0x07

/-- The constant `#define NAL_PPS 0x08`. -/
def NAL_PPS : Nat := 0x08

/-- Function `isNalStartCode(data, size)` of `main.c` lines 16-21; `data` is the memory
from the pointer onwards. -/
def isNalStartCode (data : List Nat) (size : Nat) : Bool :=
  if size < 4 then false
  else data[0]? == some 0x00 && data[1]? == some 0x00 && data[2]? == some 0x00
    && data[3]? == some 0x01

/-- The inner loop of both passes (lines 95-97 and 190-192):
`while (i < fileSize && !isNalStartCode(&buffer[i], fileSize - i)) i++;`.
The first argument bounds the number of iterations; `fileSize - i` is always
enough. -/
def skipPayload (buffer : List Nat) (fileSize : Nat) : Nat → Nat → Nat
  | 0, i => i
  | fuel + 1, i =>
    if i < fileSize && !isNalStartCode (buffer.drop i) (fileSize - i) then
      skipPayload buffer fileSize fuel (i + 1)
    else i

/-- One unit found by a scan loop: the values of `nalStart` and `nalLength`. -/
structure NalUnit where
  nalStart : Nat
  nalLength : Nat
deriving DecidableEq, Repr

/-- The bytes `nalUnit[0 .. nalLength)` of a unit in a buffer. -/
def NalUnit.bytes (u : NalUnit) (buffer : List Nat) : List Nat :=
  (buffer.drop u.nalStart).take u.nalLength

/-! ## The parameter-set pass (lines 80-138) -/

/-- The variables `spsData`, `spsSize`, `ppsData`, `ppsSize`, `foundSpsPps`;
a pointer into the buffer is an offset, `NULL` is `none`. -/
structure ParamSets where
  spsData : Option Nat
  ppsData : Option Nat
  spsSize : Nat
  ppsSize : Nat
  foundSpsPps : Bool
deriving DecidableEq, Repr

/-- Lines 81-85. -/
def ParamSets.init : ParamSets :=
  { spsData := none, ppsData := none, spsSize := 0, ppsSize := 0, foundSpsPps := false }

/-- The byte read by `nalUnit[0]` at line 106 / 110.  `nalStart` can equal
`fileSize`, one past the allocation; the byte the program finds there is not
part of the file and is the parameter `past`. -/
def readHeader (buffer : List Nat) (past : Nat) (nalStart : Nat) : Nat :=
  buffer.getD nalStart past

/-- Lines 105-119: classify the unit by `nalUnit[0] & 0x1F` and update the
parameter-set variables. -/
def ParamSets.record (st : ParamSets) (header : Nat) (u : NalUnit) : ParamSets :=
  let st :=
    if header &&& 0x1F == NAL_SPS then
      { st with spsData := some u.nalStart, spsSize := u.nalLength }
    else if header &&& 0x1F == NAL_PPS then
      { st with ppsData := some u.nalStart, ppsSize := u.nalLength }
    else st
  if st.spsData != none && st.ppsData != none then { st with foundSpsPps := true } else st

/-- What one iteration that found a unit leaves in the trace: the unit and the
byte read for its classification. -/
structure Scanned where
  unit : NalUnit
  header : Nat
deriving DecidableEq, Repr

/-- The type the program computes for a scanned unit, `nalUnit[0] & 0x1F`. -/
def Scanned.nalType (s : Scanned) : Nat := s.header &&& 0x1F

/-- Result of the parameter-set pass: the units in the order found and the
final parameter-set variables. -/
structure ParamPass where
  trace : List Scanned
  store : ParamSets
deriving DecidableEq, Repr

/-- The loop of lines 87-138, from position `i` with variables `st`.  The first
argument bounds the number of iterations of the outer loop.  The `malloc` of
line 122 is taken to succeed; the copy it receives is freed unused. -/
def paramSetLoop (buffer : List Nat) (fileSize past : Nat) :
    Nat → Nat → ParamSets → ParamPass
  | 0, _, st => { trace := [], store := st }
  | fuel + 1, i, st =>
    if i < fileSize then
      if isNalStartCode (buffer.drop i) (fileSize - i) then
        let i := i + 4
        let nalStart := i
        let i := skipPayload buffer fileSize (fileSize - i) i
        let nalLength := i - nalStart
        let u : NalUnit := { nalStart := nalStart, nalLength := nalLength }
        let header := readHeader buffer past nalStart
        let st := st.record header u
        let r := paramSetLoop buffer fileSize past fuel i st
        { r with trace := { unit := u, header := header } :: r.trace }
      else
        paramSetLoop buffer fileSize past fuel (i + 1) st
    else { trace := [], store := st }

/-- The whole parameter-set pass over a file. -/
def paramSetPass (buffer : List Nat) (past : Nat) : ParamPass :=
  paramSetLoop buffer buffer.length past buffer.length 0 ParamSets.init

/-! ## The decode pass (lines 184-245) -/

/-- The return statements of `main` after the file was read. -/
inductive Outcome where
  | noSpsPps            -- line 141, "Failed to find SPS and PPS"
  | formatDescription   -- line 153, "Failed to create format description"
  | dictionary          -- line 164, "Failed to create dictionary"
  | session             -- line 178, "Failed to create decompression session"
  | blockBuffer         -- line 200, "Failed to create block buffer"
  | replaceDataBytes    -- line 210, "Failed to replace data bytes"
  | sampleBuffer        -- line 222, "Failed to create sample buffer"
  | decodeFrame         -- line 233, "Failed to decode frame"
  | goodbye             -- line 250, the normal end
deriving DecidableEq, Repr

/-- The framework calls of `main`, each a function returning its status.  The
calls of the decode pass get the number of units found before this one and the
bytes of the unit they are given. -/
structure Services where
  /-- Status of `CMVideoFormatDescriptionCreateFromH264ParameterSets` on the SPS and PPS bytes. -/
  formatDescriptionCreate : List Nat → List Nat → OSStatus
  /-- Whether `CVPixelFormatDescriptionCreateWithPixelFormatType` returned non-`NULL`. -/
  pixelFormatDescription : Bool
  /-- Status of `VTDecompressionSessionCreate`. -/
  sessionCreate : OSStatus
  /-- Status of `CMBlockBufferCreateWithMemoryBlock`. -/
  blockBufferCreate : Nat → List Nat → OSStatus
  /-- Status of `CMBlockBufferReplaceDataBytes`. -/
  replaceDataBytes : Nat → List Nat → OSStatus
  /-- Status of `CMSampleBufferCreate`. -/
  sampleBufferCreate : Nat → List Nat → OSStatus
  /-- Status of `VTDecompressionSessionDecodeFrame`; the flag says whether the session
  passed to it was opened. -/
  decodeFrame : Bool → Nat → List Nat → OSStatus

/-- The object `uint32_t nalLength32 = htonl(n)` as its four bytes lie in
memory: `n` converted to 32 bits, most significant byte first. -/
def htonl (n : Nat) : List Nat :=
  let x := n % 2 ^ 32
  [x / 2 ^ 24 % 256, x / 2 ^ 16 % 256, x / 2 ^ 8 % 256, x % 256]

/-- The memory effect of `CMBlockBufferReplaceDataBytes(&nalLength32, blockBuffer, 0, 4)`
on a block buffer that references the file buffer at offset `nalStart`. -/
def replaceBytes (buffer : List Nat) (nalStart : Nat) (src : List Nat) : List Nat :=
  buffer.take nalStart ++ src ++ buffer.drop (nalStart + 4)

/-- What the decode pass did. -/
structure DecodePass where
  /-- The units found, in order. -/
  units : List NalUnit
  /-- The sample buffers given to `VTDecompressionSessionDecodeFrame`, in call order. -/
  submitted : List (List Nat)
  /-- How the pass ended. -/
  outcome : Outcome
  /-- The file buffer at the end. -/
  buffer : List Nat

/-- What was done with one unit of the decode pass. -/
structure UnitStep where
  /-- The return statement taken, if one was. -/
  failure : Option Outcome
  /-- The sample buffer given to `VTDecompressionSessionDecodeFrame`, if the call was made. -/
  submitted : List (List Nat)
  /-- The file buffer afterwards. -/
  buffer : List Nat

/-- Lines 194-241: the work on the unit `u`, the `k`-th found (from 0), with
the current contents of the file buffer. -/
def decodeUnit (svc : Services) (session : Bool) (k : Nat) (buffer : List Nat)
    (u : NalUnit) : UnitStep :=
  if svc.blockBufferCreate k (u.bytes buffer) ≠ noErr then
    { failure := some .blockBuffer, submitted := [], buffer := buffer }
  else
    let nalLength32 := htonl (u.nalLength - 4)
    if svc.replaceDataBytes k (u.bytes buffer) ≠ noErr then
      { failure := some .replaceDataBytes, submitted := [], buffer := buffer }
    else
      let buffer := replaceBytes buffer u.nalStart nalLength32
      if svc.sampleBufferCreate k (u.bytes buffer) ≠ noErr then
        { failure := some .sampleBuffer, submitted := [], buffer := buffer }
      else if svc.decodeFrame session k (u.bytes buffer) ≠ noErr then
        { failure := some .decodeFrame, submitted := [u.bytes buffer], buffer := buffer }
      else
        { failure := none, submitted := [u.bytes buffer], buffer := buffer }

/-- The loop of lines 186-245 from position `i`, with `k` units found so far
and the current contents of the file buffer.  The first argument bounds the
number of iterations of the outer loop; `decodePass` passes `fileSize`, and
every iteration advances `i` by at least one. -/
def decodeLoop (svc : Services) (session : Bool) (fileSize : Nat) :
    Nat → Nat → List Nat → Nat → DecodePass
  | 0, _, buffer, _ => { units := [], submitted := [], outcome := .goodbye, buffer := buffer }
  | fuel + 1, k, buffer, i =>
    if i < fileSize then
      if isNalStartCode (buffer.drop i) (fileSize - i) then
        let nalStart := i
        let i := i + 4
        let i := skipPayload buffer fileSize (fileSize - i) i
        let nalLength := i - nalStart
        let u : NalUnit := { nalStart := nalStart, nalLength := nalLength }
        let s := decodeUnit svc session k buffer u
        match s.failure with
        | some o => { units := [u], submitted := s.submitted, outcome := o, buffer := s.buffer }
        | none =>
          let r := decodeLoop svc session fileSize fuel (k + 1) s.buffer i
          { r with units := u :: r.units, submitted := s.submitted ++ r.submitted }
      else
        decodeLoop svc session fileSize fuel k buffer (i + 1)
    else { units := [], submitted := [], outcome := .goodbye, buffer := buffer }

/-- The decode pass over a file. -/
def decodePass (svc : Services) (session : Bool) (buffer : List Nat) : DecodePass :=
  decodeLoop svc session buffer.length buffer.length 0 buffer 0

/-! ## `main` (lines 80-250) -/

/-- What the call `fclose(file)` before each `return` of `main` (lines 143, 155,
166, 180, 202, 212, 224, 235, 249) does.  The stream was closed at line 77, and C
does not define a second `fclose` on it. -/
inductive FcloseAgain where
  | returns                -- the call returns (a BSD libc finds the stream not open)
  | killed (status : Int)  -- the process ends inside the call (glibc aborts: 134)
deriving DecidableEq, Repr

/-- The end of every path of `main` from line 140 on,
`free(buffer); fclose(file); return value;`: the exit status of the process. -/
def fcloseThenReturn (libc : FcloseAgain) (value : Int) : Int :=
  match libc with
  | .returns => value
  | .killed status => status

/-- What a run of `main` did after reading the file. -/
structure Run where
  /-- The exit status of the process. -/
  exitStatus : Int
  /-- The return statement taken. -/
  outcome : Outcome
  /-- The parameter-set pass. -/
  params : ParamPass
  /-- The SPS and PPS bytes given to
  `CMVideoFormatDescriptionCreateFromH264ParameterSets`, if the call was made. -/
  formatDescriptionCall : Option (List Nat × List Nat)
  /-- The units found by the decode pass. -/
  units : List NalUnit
  /-- The sample buffers given to `VTDecompressionSessionDecodeFrame`. -/
  submitted : List (List Nat)
  /-- The file buffer at the end. -/
  buffer : List Nat

/-- The bytes designated by `parameterSetPointers[0]` and `parameterSetSizes[0]`
(line 149-150): `spsSize` bytes from `spsData`. -/
def spsBytes (buffer : List Nat) (st : ParamSets) : List Nat :=
  (buffer.drop (st.spsData.getD 0)).take st.spsSize

/-- The bytes designated by `parameterSetPointers[1]` and `parameterSetSizes[1]`:
`ppsSize` bytes from `ppsData`. -/
def ppsBytes (buffer : List Nat) (st : ParamSets) : List Nat :=
  (buffer.drop (st.ppsData.getD 0)).take st.ppsSize

/-- Function `main` from line 80 on, for a file with contents `buffer`; `libc`
says what the second `fclose(file)` before each `return` does. -/
def main (libc : FcloseAgain) (svc : Services) (past : Nat) (buffer : List Nat) : Run :=
  let p := paramSetPass buffer past
  if !p.store.foundSpsPps then
    { exitStatus := fcloseThenReturn libc 0, outcome := .noSpsPps, params := p,
      formatDescriptionCall := none,
      units := [], submitted := [], buffer := buffer }
  else
    let sps := spsBytes buffer p.store
    let pps := ppsBytes buffer p.store
    let status := svc.formatDescriptionCreate sps pps
    if status ≠ noErr then
      { exitStatus := fcloseThenReturn libc 0, outcome := .formatDescription, params := p,
        formatDescriptionCall := some (sps, pps), units := [], submitted := [],
        buffer := buffer }
    else if !svc.pixelFormatDescription then
      { exitStatus := fcloseThenReturn libc 0, outcome := .dictionary, params := p,
        formatDescriptionCall := some (sps, pps), units := [], submitted := [],
        buffer := buffer }
    else
      -- line 176: the value returned by `VTDecompressionSessionCreate` is not stored,
      -- line 177 tests `status` of line 151 again
      let decompressionSession := svc.sessionCreate == noErr
      if status ≠ noErr then
        { exitStatus := fcloseThenReturn libc 0, outcome := .session, params := p,
          formatDescriptionCall := some (sps, pps), units := [], submitted := [],
          buffer := buffer }
      else
        let d := decodePass svc decompressionSession buffer
        { exitStatus := fcloseThenReturn libc 0, outcome := d.outcome, params := p,
          formatDescriptionCall := some (sps, pps), units := d.units,
          submitted := d.submitted, buffer := d.buffer }

/-! ## The decode callback (lines 24-55) -/

/-- The fields of the `CVImageBufferRef` that the callback reads: the memory
from each plane's base address on, the strides and the picture size. -/
structure ImageBuffer where
  planeY : Nat → Nat
  planeUV : Nat → Nat
  bytesPerRowY : Nat
  bytesPerRowUV : Nat
  width : Nat
  height : Nat

/-- The call `fwrite(ptr, sizeof(uint8_t), count, file)` on a file opened for append,
when every byte is written. -/
def fwrite (ptr : Nat → Nat) (count : Nat) (file : List Nat) : List Nat :=
  file ++ (List.range count).map ptr

/-- Function `decompressionOutputCallback`: the contents of `output.raw` after the call.
`fileOpens` says whether `fopen` succeeded; the `size_t` products are taken
modulo `2 ^ 64`. -/
def decompressionOutputCallback (status : OSStatus) (imageBuffer : ImageBuffer)
    (fileOpens : Bool) (output : List Nat) : List Nat :=
  if status ≠ noErr then output
  else
    let bytesPerRowY := imageBuffer.bytesPerRowY
    let bytesPerRowUV := imageBuffer.bytesPerRowUV
    let height := imageBuffer.height
    if fileOpens then
      let file := fwrite imageBuffer.planeY (bytesPerRowY * height % 2 ^ 64) output
      fwrite imageBuffer.planeUV (bytesPerRowUV * height % 2 ^ 64 / 2) file
    else output

/-! ## Auxiliary definitions for the statements -/

/-- Whether a start code begins at offset `i` of the file, as both scan loops
test it: `isNalStartCode(&buffer[i], fileSize - i)`. -/
def startAt (b : List Nat) (i : Nat) : Bool :=
  isNalStartCode (b.drop i) (b.length - i)

/-- The value of `i` after the inner loop, for a unit whose start code is at
offset `i` of the file `b`. -/
def unitEnd (b : List Nat) (i : Nat) : Nat :=
  skipPayload b b.length (b.length - (i + 4)) (i + 4)

/-- The unit of the decode pass whose start code is at offset `i`. -/
def unitAt (b : List Nat) (i : Nat) : NalUnit :=
  { nalStart := i, nalLength := unitEnd b i - i }

/-- The scan common to both loops, without the work done per unit: the units
as the decode pass counts them (offset of the start code, length up to the next
start code or the end of the file). -/
def scanLoop (b : List Nat) : Nat → Nat → List NalUnit
  | 0, _ => []
  | fuel + 1, i =>
    if i < b.length then
      if startAt b i then unitAt b i :: scanLoop b fuel (unitEnd b i)
      else scanLoop b fuel (i + 1)
    else []

/-- The four bytes `00 00 00 01`. -/
def startCode : List Nat := [0x00, 0x00, 0x00, 0x01]

/-- Reading four bytes as a big-endian integer. -/
def beDecode (l : List Nat) : Nat :=
  l.getD 0 0 * 2 ^ 24 + l.getD 1 0 * 2 ^ 16 + l.getD 2 0 * 2 ^ 8 + l.getD 3 0

/-- The access unit the decode pass must hand over for a unit of the original
file: the length field written by `htonl(nalLength - 4)`, then the payload. -/
def accessUnit (b : List Nat) (u : NalUnit) : List Nat :=
  htonl (u.nalLength - 4) ++ (b.drop (u.nalStart + 4)).take (u.nalLength - 4)

/-- Every call of the decode pass returns `noErr`. -/
def Services.AcceptsAll (svc : Services) : Prop :=
  ∀ (s : Bool) (k : Nat) (bytes : List Nat),
    svc.blockBufferCreate k bytes = noErr ∧ svc.replaceDataBytes k bytes = noErr ∧
    svc.sampleBufferCreate k bytes = noErr ∧ svc.decodeFrame s k bytes = noErr

/-- Services whose every call succeeds. -/
def okServices : Services :=
  { formatDescriptionCreate := fun _ _ => noErr
    pixelFormatDescription := true
    sessionCreate := noErr
    blockBufferCreate := fun _ _ => noErr
    replaceDataBytes := fun _ _ => noErr
    sampleBufferCreate := fun _ _ => noErr
    decodeFrame := fun _ _ _ => noErr }

/-- Scenario A: an SPS, a PPS and two slices, with first payload bytes
`0x67`, `0x68`, `0x65`, `0x41`. -/
def scenarioA : List Nat :=
  [0, 0, 0, 1, 0x67, 0x42, 0, 0, 0, 1, 0x68, 0xCE, 0, 0, 0, 1, 0x65, 0x88, 0x84,
   0, 0, 0, 1, 0x41, 0x9A]

/-- Scenario B: two adjacent start codes, then an SPS. -/
def scenarioB : List Nat := [0, 0, 0, 1, 0, 0, 0, 1, 0x67, 0x42]

/-- Scenario C: one SPS, one PPS and no slice. -/
def scenarioC : List Nat := [0, 0, 0, 1, 0x67, 0x42, 0, 0, 0, 1, 0x68, 0xCE]

/-- The file `(00 00 00 01 ++ p_1) ++ ... ++ (00 00 00 01 ++ p_k)` made of the
payloads `ps`. -/
def annexB (ps : List (List Nat)) : List Nat :=
  (ps.map (fun p => startCode ++ p)).flatten

/-- The units of the file `annexB ps` placed at offset `off`, as the decode pass
counts them. -/
def unitsOf : Nat → List (List Nat) → List NalUnit
  | _, [] => []
  | off, p :: ps => { nalStart := off, nalLength := 4 + p.length } :: unitsOf (off + 4 + p.length) ps

/-- How the parameter-set pass sees a unit of the scan: its payload only, and
the byte read for its classification. -/
def paramView (b : List Nat) (past : Nat) (u : NalUnit) : Scanned :=
  { unit := { nalStart := u.nalStart + 4, nalLength := u.nalLength - 4 },
    header := readHeader b past (u.nalStart + 4) }

/-- The trace the parameter-set pass must leave for the file `annexB ps` placed
at offset `off`: per payload, its offset and length and its first byte. -/
def scannedOf : Nat → List (List Nat) → List Scanned
  | _, [] => []
  | off, p :: ps =>
    { unit := { nalStart := off + 4, nalLength := p.length }, header := p.headD 0 } ::
      scannedOf (off + 4 + p.length) ps

/-- A payload of `2 ^ 32` bytes, all `0x65`. -/
def hugePayload : List Nat := List.replicate (2 ^ 32) 0x65

/-- A file with an SPS, a PPS and one slice whose payload is `hugePayload`. -/
def hugeFile : List Nat := annexB [[0x67, 0x42], [0x68, 0xCE], hugePayload]

/-- Services for which opening the decompression session fails
(`kVTVideoDecoderNotAvailableNowErr`) and every other call succeeds, a decode
call on a session that was not opened returning `kVTInvalidSessionErr`. -/
def sessionFailsServices : Services :=
  { okServices with
    sessionCreate := -12913
    decodeFrame := fun session _ _ => if session then noErr else -12903 }

/-- A picture of odd height 3 with both strides 4. -/
def oddImage : ImageBuffer :=
  { planeY := fun _ => 0x10, planeUV := fun _ => 0x80, bytesPerRowY := 4, bytesPerRowUV := 4,
    width := 4, height := 3 }

/-- A picture of height 4 with both strides 4. -/
def evenImage : ImageBuffer :=
  { planeY := fun _ => 0x10, planeUV := fun _ => 0x80, bytesPerRowY := 4, bytesPerRowUV := 4,
    width := 4, height := 4 }

/-- The type of a unit of the file `b` in the spec's words (section 4.2): the
low 5 bits of the first payload byte, and none for an empty payload. -/
def payloadType (b : List Nat) (u : NalUnit) : Option Nat :=
  (u.bytes b).head?.map (fun x => x &&& 0x1F)

/-- A file with one SPS that ends in a start code. -/
def trailingStartCode : List Nat := [0, 0, 0, 1, 0x67, 0x42, 0, 0, 0, 1]

/-! ## Theorems -/


theorem isNalStartCode_eq_true_iff (data : List Nat) (size : Nat) :
    isNalStartCode data size = true ↔ 4 ≤ size ∧ ∃ t, data = 0 :: 0 :: 0 :: 1 :: t := by
  unfold isNalStartCode
  by_cases h : size < 4
  · simp [h]
  · simp only [h, if_false]
    constructor
    · intro hh
      refine ⟨by omega, ?_⟩
      match data, hh with
      | a :: b :: c :: d :: t, hh =>
        simp at hh
        obtain ⟨⟨⟨h0, h1⟩, h2⟩, h3⟩ := hh
        exact ⟨t, by simp [h0, h1, h2, h3]⟩
      | [], hh => simp at hh
      | [_], hh => simp at hh
      | [_, _], hh => simp at hh
      | [_, _, _], hh => simp at hh
    · rintro ⟨_, t, rfl⟩
      simp

theorem startAt_iff (b : List Nat) (i : Nat) :
    startAt b i = true ↔ ∃ t, b.drop i = 0 :: 0 :: 0 :: 1 :: t := by
  unfold startAt
  rw [isNalStartCode_eq_true_iff]
  constructor
  · rintro ⟨_, h⟩; exact h
  · rintro ⟨t, ht⟩
    refine ⟨?_, t, ht⟩
    have := congrArg List.length ht
    simp at this
    omega

theorem startAt_le (b : List Nat) (i : Nat) (h : startAt b i = true) : i + 4 ≤ b.length := by
  unfold startAt at h
  rw [isNalStartCode_eq_true_iff] at h
  omega

theorem startAt_congr {b c : List Nat} {i : Nat} (hd : c.drop i = b.drop i) (j : Nat) (hj : i ≤ j) :
    startAt c j = startAt b j := by
  have hdj : c.drop j = b.drop j := by
    have e1 : c.drop j = (c.drop i).drop (j - i) := by
      rw [List.drop_drop]; congr 1; omega
    have e2 : b.drop j = (b.drop i).drop (j - i) := by
      rw [List.drop_drop]; congr 1; omega
    rw [e1, e2, hd]
  have hl : c.length - j = b.length - j := by
    have := congrArg List.length hdj
    simpa using this
  unfold startAt
  rw [hdj, hl]
theorem drop_eq_of_le {b c : List Nat} {i : Nat} (hd : c.drop i = b.drop i) (j : Nat)
    (hj : i ≤ j) : c.drop j = b.drop j := by
  have e1 : c.drop j = (c.drop i).drop (j - i) := by
    rw [List.drop_drop]; congr 1; omega
  have e2 : b.drop j = (b.drop i).drop (j - i) := by
    rw [List.drop_drop]; congr 1; omega
  rw [e1, e2, hd]

theorem skipPayload_step (b : List Nat) (fuel i : Nat) :
    skipPayload b b.length (fuel + 1) i =
      if i < b.length ∧ startAt b i = false then skipPayload b b.length fuel (i + 1) else i := by
  simp [skipPayload, startAt]

theorem skipPayload_spec (b : List Nat) : ∀ (fuel i : Nat), b.length - i ≤ fuel → i ≤ b.length →
    i ≤ skipPayload b b.length fuel i ∧ skipPayload b b.length fuel i ≤ b.length ∧
    (skipPayload b b.length fuel i = b.length ∨
      startAt b (skipPayload b b.length fuel i) = true) ∧
    ∀ j, i ≤ j → j < skipPayload b b.length fuel i → startAt b j = false := by
  intro fuel
  induction fuel with
  | zero =>
    intro i hf hi
    have : i = b.length := by omega
    subst this
    simp only [skipPayload]
    exact ⟨le_refl _, le_refl _, Or.inl trivial, fun j h1 h2 => by omega⟩
  | succ fuel ih =>
    intro i hf hi
    rw [skipPayload_step]
    by_cases hc : i < b.length ∧ startAt b i = false
    · rw [if_pos hc]
      obtain ⟨h1, h2, h3, h4⟩ := ih (i + 1) (by omega) (by omega)
      refine ⟨by omega, h2, h3, ?_⟩
      intro j hj hjr
      by_cases hji : j = i
      · rw [hji]; exact hc.2
      · exact h4 j (by omega) hjr
    · rw [if_neg hc]
      refine ⟨le_refl _, hi, ?_, fun j h1 h2 => by omega⟩
      by_cases hlt : i < b.length
      · right
        simp only [hlt, true_and, Bool.not_eq_false] at hc
        exact hc
      · left; omega

theorem skipPayload_exact (b : List Nat) (fuel i m : Nat) (hf : b.length - i ≤ fuel)
    (hm : i + m ≤ b.length) (hno : ∀ j, j < m → startAt b (i + j) = false)
    (hend : i + m = b.length ∨ startAt b (i + m) = true) :
    skipPayload b b.length fuel i = i + m := by
  obtain ⟨h1, h2, h3, h4⟩ := skipPayload_spec b fuel i hf (by omega)
  rcases Nat.lt_trichotomy (skipPayload b b.length fuel i) (i + m) with hlt | heq | hgt
  · exfalso
    have hs : startAt b (skipPayload b b.length fuel i) = true := by
      rcases h3 with h3 | h3
      · omega
      · exact h3
    have := hno (skipPayload b b.length fuel i - i) (by omega)
    rw [show i + (skipPayload b b.length fuel i - i) = skipPayload b b.length fuel i by omega] at this
    rw [this] at hs
    exact Bool.noConfusion hs
  · exact heq
  · exfalso
    have hs : startAt b (i + m) = true := by
      rcases hend with h | h
      · omega
      · exact h
    have := h4 (i + m) (by omega) hgt
    rw [this] at hs
    exact Bool.noConfusion hs

theorem skipPayload_congr {b c : List Nat} :
    ∀ (fuel i : Nat), c.drop i = b.drop i →
      skipPayload c b.length fuel i = skipPayload b b.length fuel i := by
  intro fuel
  induction fuel with
  | zero => intro i _; rfl
  | succ fuel ih =>
    intro i hd
    have hd1 := drop_eq_of_le hd (i + 1) (by omega)
    simp only [skipPayload, hd, ih (i + 1) hd1]
theorem unitEnd_spec (b : List Nat) (i : Nat) (hle : i + 4 ≤ b.length) :
    i + 4 ≤ unitEnd b i ∧ unitEnd b i ≤ b.length ∧
    (unitEnd b i = b.length ∨ startAt b (unitEnd b i) = true) ∧
    ∀ j, i + 4 ≤ j → j < unitEnd b i → startAt b j = false :=
  skipPayload_spec b (b.length - (i + 4)) (i + 4) (le_refl _) hle

theorem scanLoop_succ_start (b : List Nat) (fuel i : Nat) (hs : startAt b i = true) :
    scanLoop b (fuel + 1) i = unitAt b i :: scanLoop b fuel (unitEnd b i) := by
  have := startAt_le b i hs
  have hi : i < b.length := by omega
  simp [scanLoop, hs, hi]

theorem scanLoop_succ_skip (b : List Nat) (fuel i : Nat) (hi : i < b.length)
    (hs : startAt b i = false) : scanLoop b (fuel + 1) i = scanLoop b fuel (i + 1) := by
  simp [scanLoop, hs, hi]

theorem scanLoop_end (b : List Nat) (fuel i : Nat) (hi : b.length ≤ i) :
    scanLoop b fuel i = [] := by
  cases fuel with
  | zero => rfl
  | succ fuel =>
    have : ¬ i < b.length := by omega
    simp [scanLoop, this]

theorem scanLoop_fuel (b : List Nat) : ∀ (fuel fuel2 i : Nat), b.length - i ≤ fuel →
    b.length - i ≤ fuel2 → scanLoop b fuel i = scanLoop b fuel2 i := by
  intro fuel
  induction fuel with
  | zero =>
    intro fuel2 i hf _
    rw [scanLoop_end b 0 i (by omega), scanLoop_end b fuel2 i (by omega)]
  | succ fuel ih =>
    intro fuel2 i hf hf2
    by_cases hi : i < b.length
    · obtain ⟨g, rfl⟩ : ∃ g, fuel2 = g + 1 := ⟨fuel2 - 1, by omega⟩
      by_cases hs : startAt b i = true
      · have hle := startAt_le b i hs
        obtain ⟨h1, _, _, _⟩ := unitEnd_spec b i hle
        rw [scanLoop_succ_start b fuel i hs, scanLoop_succ_start b g i hs,
          ih g _ (by omega) (by omega)]
      · simp only [Bool.not_eq_true] at hs
        rw [scanLoop_succ_skip b fuel i hi hs, scanLoop_succ_skip b g i hi hs,
          ih g _ (by omega) (by omega)]
    · rw [scanLoop_end b _ i (by omega), scanLoop_end b fuel2 i (by omega)]

theorem htonl_length (n : Nat) : (htonl n).length = 4 := rfl

theorem replaceBytes_length (buf : List Nat) (i : Nat) (src : List Nat) (hs : src.length = 4)
    (hi : i + 4 ≤ buf.length) : (replaceBytes buf i src).length = buf.length := by
  simp [replaceBytes, hs]
  omega

theorem replaceBytes_drop (buf : List Nat) (i : Nat) (src : List Nat)
    (hi : i ≤ buf.length) : (replaceBytes buf i src).drop i = src ++ buf.drop (i + 4) := by
  unfold replaceBytes
  rw [List.append_assoc, List.drop_append_of_le_length (by simp; omega)]
  simp [List.drop_take]

theorem replaceBytes_drop4 (buf : List Nat) (i : Nat) (src : List Nat) (hs : src.length = 4)
    (hi : i ≤ buf.length) : (replaceBytes buf i src).drop (i + 4) = buf.drop (i + 4) := by
  have h := replaceBytes_drop buf i src hi
  have : (replaceBytes buf i src).drop (i + 4) = ((replaceBytes buf i src).drop i).drop 4 := by
    rw [List.drop_drop, Nat.add_comm]
  rw [this, h, List.drop_append_of_le_length (by omega)]
  simp [List.drop_eq_nil_of_le, hs]

theorem replaceBytes_take (buf : List Nat) (i : Nat) (src : List Nat)
    (hi : i ≤ buf.length) : (replaceBytes buf i src).take i = buf.take i := by
  unfold replaceBytes
  rw [List.append_assoc, List.take_append_of_le_length (by simp; omega)]
  simp [List.take_take]
theorem bytes_replaceBytes (buf b : List Nat) (i l : Nat) (hd : buf.drop i = b.drop i)
    (hi : i ≤ buf.length) (h4 : 4 ≤ l) :
    NalUnit.bytes { nalStart := i, nalLength := l } (replaceBytes buf i (htonl (l - 4)))
      = accessUnit b { nalStart := i, nalLength := l } := by
  simp only [NalUnit.bytes, accessUnit]
  rw [replaceBytes_drop buf i _ hi, List.take_append_eq_append_take, htonl_length,
    drop_eq_of_le hd (i + 4) (by omega), List.take_of_length_le (by rw [htonl_length]; exact h4)]

theorem lookup_eq_of_take_drop {x y : List Nat} {i : Nat} (ht : x.take i = y.take i)
    (hdr : x.drop (i + 4) = y.drop (i + 4)) (j : Nat) (hj : j < i ∨ i + 4 ≤ j) :
    x[j]? = y[j]? := by
  rcases hj with hj | hj
  · have h1 : (x.take i)[j]? = x[j]? := by
      rw [List.getElem?_take, if_pos hj]
    have h2 : (y.take i)[j]? = y[j]? := by
      rw [List.getElem?_take, if_pos hj]
    rw [← h1, ← h2, ht]
  · have h1 : (x.drop (i + 4))[j - (i + 4)]? = x[j]? := by
      rw [List.getElem?_drop]; congr 1; omega
    have h2 : (y.drop (i + 4))[j - (i + 4)]? = y[j]? := by
      rw [List.getElem?_drop]; congr 1; omega
    rw [← h1, ← h2, hdr]

theorem decodeUnit_spec (svc : Services) (session : Bool) (k : Nat) (buf b : List Nat)
    (u : NalUnit) (hd : buf.drop u.nalStart = b.drop u.nalStart) (hl : buf.length = b.length)
    (h4 : 4 ≤ u.nalLength) (hle : u.nalStart + u.nalLength ≤ b.length) :
    (decodeUnit svc session k buf u).buffer.length = b.length ∧
    (decodeUnit svc session k buf u).buffer.drop (u.nalStart + 4) = b.drop (u.nalStart + 4) ∧
    (decodeUnit svc session k buf u).buffer.take u.nalStart = buf.take u.nalStart ∧
    ((decodeUnit svc session k buf u).submitted = [] ∨
      (decodeUnit svc session k buf u).submitted = [accessUnit b u]) ∧
    ((decodeUnit svc session k buf u).failure = none →
      (decodeUnit svc session k buf u).submitted = [accessUnit b u]) ∧
    (svc.AcceptsAll → (decodeUnit svc session k buf u).failure = none) := by
  obtain ⟨i, l⟩ := u
  simp only at hd h4 hle ⊢
  have hi : i ≤ buf.length := by omega
  have hi4 : i + 4 ≤ buf.length := by omega
  have hb4 : buf.drop (i + 4) = b.drop (i + 4) := drop_eq_of_le hd (i + 4) (by omega)
  have e1 := replaceBytes_length buf i (htonl (l - 4)) (htonl_length _) hi4
  have e2 := replaceBytes_drop4 buf i (htonl (l - 4)) (htonl_length _) hi
  have e3 := replaceBytes_take buf i (htonl (l - 4)) hi
  have e4 := bytes_replaceBytes buf b i l hd hi h4
  unfold decodeUnit
  simp only []
  split
  · refine ⟨hl, hb4, rfl, Or.inl rfl, fun h => by simp at h, fun h => ?_⟩
    rename_i hc
    exact absurd (h session k _).1 hc
  · split
    · refine ⟨hl, hb4, rfl, Or.inl rfl, fun h => by simp at h, fun h => ?_⟩
      rename_i hc
      exact absurd (h session k _).2.1 hc
    · split
      · refine ⟨by rw [e1, hl], by rw [e2, hb4], e3, Or.inl rfl, fun h => by simp at h,
          fun h => ?_⟩
        rename_i hc
        exact absurd (h session k _).2.2.1 hc
      · split
        · refine ⟨by rw [e1, hl], by rw [e2, hb4], e3, Or.inr (by rw [e4]),
            fun h => by simp at h, fun h => ?_⟩
          rename_i hc
          exact absurd (h session k _).2.2.2 hc
        · exact ⟨by rw [e1, hl], by rw [e2, hb4], e3, Or.inr (by rw [e4]),
            fun _ => by rw [e4], fun _ => rfl⟩

theorem decodeLoop_end (svc : Services) (session : Bool) (n fuel k : Nat) (buf : List Nat)
    (i : Nat) (hi : n ≤ i) :
    decodeLoop svc session n fuel k buf i
      = { units := [], submitted := [], outcome := .goodbye, buffer := buf } := by
  cases fuel with
  | zero => rfl
  | succ fuel =>
    have : ¬ i < n := by omega
    simp [decodeLoop, this]

theorem decodeLoop_succ_skip (svc : Services) (session : Bool) (b buf : List Nat)
    (fuel k i : Nat) (hd : buf.drop i = b.drop i) (hi : i < b.length)
    (hs : startAt b i = false) :
    decodeLoop svc session b.length (fuel + 1) k buf i
      = decodeLoop svc session b.length fuel k buf (i + 1) := by
  unfold startAt at hs
  simp [decodeLoop, hd, hs, hi]

theorem decodeLoop_succ_fail (svc : Services) (session : Bool) (b buf : List Nat)
    (fuel k i : Nat) (hd : buf.drop i = b.drop i) (hs : startAt b i = true) (o : Outcome)
    (hf : (decodeUnit svc session k buf (unitAt b i)).failure = some o) :
    decodeLoop svc session b.length (fuel + 1) k buf i
      = { units := [unitAt b i],
          submitted := (decodeUnit svc session k buf (unitAt b i)).submitted,
          outcome := o,
          buffer := (decodeUnit svc session k buf (unitAt b i)).buffer } := by
  have hle := startAt_le b i hs
  have hi : i < b.length := by omega
  have hsk : skipPayload buf b.length (b.length - (i + 4)) (i + 4) = unitEnd b i :=
    skipPayload_congr _ _ (drop_eq_of_le hd (i + 4) (by omega))
  unfold startAt at hs
  rw [decodeLoop]
  simp only [hi, if_true, hd, hs, hsk]
  simp only [unitAt] at hf
  simp only [hf, unitAt]

theorem decodeLoop_succ_ok (svc : Services) (session : Bool) (b buf : List Nat)
    (fuel k i : Nat) (hd : buf.drop i = b.drop i) (hs : startAt b i = true)
    (hf : (decodeUnit svc session k buf (unitAt b i)).failure = none) :
    decodeLoop svc session b.length (fuel + 1) k buf i
      = { units := unitAt b i :: (decodeLoop svc session b.length fuel (k + 1)
            (decodeUnit svc session k buf (unitAt b i)).buffer (unitEnd b i)).units,
          submitted := (decodeUnit svc session k buf (unitAt b i)).submitted ++
            (decodeLoop svc session b.length fuel (k + 1)
              (decodeUnit svc session k buf (unitAt b i)).buffer (unitEnd b i)).submitted,
          outcome := (decodeLoop svc session b.length fuel (k + 1)
            (decodeUnit svc session k buf (unitAt b i)).buffer (unitEnd b i)).outcome,
          buffer := (decodeLoop svc session b.length fuel (k + 1)
            (decodeUnit svc session k buf (unitAt b i)).buffer (unitEnd b i)).buffer } := by
  have hle := startAt_le b i hs
  have hi : i < b.length := by omega
  have hsk : skipPayload buf b.length (b.length - (i + 4)) (i + 4) = unitEnd b i :=
    skipPayload_congr _ _ (drop_eq_of_le hd (i + 4) (by omega))
  unfold startAt at hs
  rw [decodeLoop]
  simp only [hi, if_true, hd, hs, hsk]
  simp only [unitAt] at hf
  simp only [hf, unitAt]
theorem decodeUnit_failure_ne (svc : Services) (session : Bool) (k : Nat) (buf : List Nat)
    (u : NalUnit) : (decodeUnit svc session k buf u).failure ≠ some .goodbye := by
  unfold decodeUnit
  simp only []
  split
  · simp
  · split
    · simp
    · split
      · simp
      · split <;> simp

theorem decodeLoop_spec (svc : Services) (session : Bool) (b : List Nat) :
    ∀ (fuel k : Nat) (buf : List Nat) (i : Nat), buf.length = b.length →
      buf.drop i = b.drop i →
      (decodeLoop svc session b.length fuel k buf i).units
        = (scanLoop b fuel i).take (decodeLoop svc session b.length fuel k buf i).units.length ∧
      (decodeLoop svc session b.length fuel k buf i).submitted
        = (((decodeLoop svc session b.length fuel k buf i).units.take
            (decodeLoop svc session b.length fuel k buf i).submitted.length).map
              (accessUnit b)) ∧
      (decodeLoop svc session b.length fuel k buf i).buffer.length = b.length ∧
      (∀ j, (∀ u ∈ (decodeLoop svc session b.length fuel k buf i).units,
          ¬ (u.nalStart ≤ j ∧ j < u.nalStart + 4)) →
        (decodeLoop svc session b.length fuel k buf i).buffer[j]? = buf[j]?) ∧
      ((decodeLoop svc session b.length fuel k buf i).outcome = .goodbye →
        (decodeLoop svc session b.length fuel k buf i).units = scanLoop b fuel i ∧
        (decodeLoop svc session b.length fuel k buf i).submitted
          = (scanLoop b fuel i).map (accessUnit b)) ∧
      (svc.AcceptsAll → (decodeLoop svc session b.length fuel k buf i).outcome = .goodbye) := by
  intro fuel
  induction fuel with
  | zero =>
    intro k buf i hl _
    simp [decodeLoop, scanLoop, hl]
  | succ fuel ih =>
    intro k buf i hl hd
    by_cases hi : i < b.length
    · by_cases hs : startAt b i = true
      · have hle := startAt_le b i hs
        obtain ⟨g1, g2, _, _⟩ := unitEnd_spec b i hle
        have hu1 : (unitAt b i).nalStart = i := rfl
        have hu2 : (unitAt b i).nalLength = unitEnd b i - i := rfl
        obtain ⟨s1, s2, s3, s4, s5, s6⟩ := decodeUnit_spec svc session k buf b (unitAt b i)
          hd hl (by rw [hu2]; omega) (by rw [hu1, hu2]; omega)
        rw [hu1] at s2 s3
        have hne := decodeUnit_failure_ne svc session k buf (unitAt b i)
        have hbuf : ∀ j, ¬ (i ≤ j ∧ j < i + 4) →
            (decodeUnit svc session k buf (unitAt b i)).buffer[j]? = buf[j]? := by
          intro j hj
          refine lookup_eq_of_take_drop s3 ?_ j (by omega)
          rw [s2, drop_eq_of_le hd (i + 4) (by omega)]
        rw [scanLoop_succ_start b fuel i hs]
        cases hf : (decodeUnit svc session k buf (unitAt b i)).failure with
        | some o =>
          rw [decodeLoop_succ_fail svc session b buf fuel k i hd hs o hf]
          refine ⟨by simp, ?_, s1, ?_, ?_, ?_⟩
          · rcases s4 with s4 | s4 <;> simp [s4]
          · intro j hj
            simp only [List.mem_singleton, forall_eq, hu1] at hj
            exact hbuf j hj
          · intro ho
            simp only at ho
            rw [ho] at hf
            exact absurd hf hne
          · intro ha
            rw [s6 ha] at hf
            exact Option.noConfusion hf
        | none =>
          rw [decodeLoop_succ_ok svc session b buf fuel k i hd hs hf]
          have hsub := s5 hf
          obtain ⟨r1, r2, r3, r4, r5, r6⟩ := ih (k + 1)
            (decodeUnit svc session k buf (unitAt b i)).buffer (unitEnd b i) s1
            (drop_eq_of_le s2 (unitEnd b i) g1)
          refine ⟨?_, ?_, r3, ?_, ?_, ?_⟩
          · simp only [List.length_cons, List.take_succ_cons]
            rw [← r1]
          · simp only [hsub, List.singleton_append, List.length_cons,
              List.take_succ_cons, List.map_cons]
            rw [← r2]
          · intro j hj
            simp only [List.mem_cons, forall_eq_or_imp, hu1] at hj
            rw [r4 j hj.2]
            exact hbuf j hj.1
          · intro ho
            obtain ⟨q1, q2⟩ := r5 ho
            simp only [hsub, List.singleton_append, List.map_cons]
            rw [q1, q2]
            exact ⟨rfl, rfl⟩
          · exact r6
      · simp only [Bool.not_eq_true] at hs
        rw [decodeLoop_succ_skip svc session b buf fuel k i hd hi hs,
          scanLoop_succ_skip b fuel i hi hs]
        exact ih k buf (i + 1) hl (drop_eq_of_le hd (i + 1) (by omega))
    · rw [decodeLoop_end svc session b.length _ k buf i (by omega),
        scanLoop_end b _ i (by omega)]
      simp [hl]
theorem okServices_acceptsAll : okServices.AcceptsAll :=
  fun _ _ _ => ⟨rfl, rfl, rfl, rfl⟩

theorem decodePass_units (svc : Services) (session : Bool) (b : List Nat)
    (h : svc.AcceptsAll) :
    (decodePass svc session b).units = scanLoop b b.length 0 ∧
    (decodePass svc session b).submitted = (scanLoop b b.length 0).map (accessUnit b) ∧
    (decodePass svc session b).outcome = .goodbye := by
  obtain ⟨_, _, _, _, r5, r6⟩ := decodeLoop_spec svc session b b.length 0 b 0 rfl rfl
  exact ⟨(r5 (r6 h)).1, (r5 (r6 h)).2, r6 h⟩

theorem beDecode_htonl (n : Nat) : beDecode (htonl n) = n % 2 ^ 32 := by
  simp only [beDecode, htonl, List.getD_cons_zero, List.getD_cons_succ]
  norm_num
  omega

theorem htonl_lt (n : Nat) : ∀ x ∈ htonl n, x < 256 := by
  intro x hx
  simp only [htonl, List.mem_cons, List.mem_singleton, List.not_mem_nil, or_false] at hx
  rcases hx with rfl | rfl | rfl | rfl <;> exact Nat.mod_lt _ (by norm_num)

theorem scanLoop_mem (b : List Nat) : ∀ (fuel i : Nat) (u : NalUnit), u ∈ scanLoop b fuel i →
    i ≤ u.nalStart ∧ 4 ≤ u.nalLength ∧ u.nalStart + u.nalLength ≤ b.length ∧
      startAt b u.nalStart = true := by
  intro fuel
  induction fuel with
  | zero => intro i u hu; simp [scanLoop] at hu
  | succ fuel ih =>
    intro i u hu
    by_cases hi : i < b.length
    · by_cases hs : startAt b i = true
      · have hle := startAt_le b i hs
        obtain ⟨g1, g2, _, _⟩ := unitEnd_spec b i hle
        rw [scanLoop_succ_start b fuel i hs] at hu
        rcases List.mem_cons.1 hu with rfl | hu
        · simp only [unitAt]
          exact ⟨le_refl _, by omega, by omega, hs⟩
        · have := ih _ u hu
          exact ⟨by omega, this.2⟩
      · simp only [Bool.not_eq_true] at hs
        rw [scanLoop_succ_skip b fuel i hi hs] at hu
        have := ih _ u hu
        exact ⟨by omega, this.2⟩
    · rw [scanLoop_end b _ i (by omega)] at hu
      simp at hu

theorem decodePass_units_mem (svc : Services) (session : Bool) (b : List Nat) (u : NalUnit)
    (hu : u ∈ (decodePass svc session b).units) :
    4 ≤ u.nalLength ∧ u.nalStart + u.nalLength ≤ b.length ∧ startAt b u.nalStart = true := by
  obtain ⟨r1, _⟩ := decodeLoop_spec svc session b b.length 0 b 0 rfl rfl
  unfold decodePass at hu
  rw [r1] at hu
  exact (scanLoop_mem b _ 0 u (List.mem_of_mem_take hu)).2

theorem decodePass_submitted_get (svc : Services) (session : Bool) (b : List Nat) (k : Nat)
    (au : List Nat) (hk : (decodePass svc session b).submitted[k]? = some au) :
    ∃ u, (decodePass svc session b).units[k]? = some u ∧ au = accessUnit b u := by
  obtain ⟨_, r2, _⟩ := decodeLoop_spec svc session b b.length 0 b 0 rfl rfl
  unfold decodePass at hk ⊢
  rw [r2, List.getElem?_map] at hk
  cases hx : ((decodeLoop svc session b.length b.length 0 b 0).units.take
      (decodeLoop svc session b.length b.length 0 b 0).submitted.length)[k]? with
  | none => rw [hx] at hk; simp at hk
  | some u =>
    rw [hx] at hk
    simp only [Option.map_some', Option.some.injEq] at hk
    refine ⟨u, ?_, hk.symm⟩
    rw [List.getElem?_take] at hx
    split at hx
    · exact hx
    · exact Option.noConfusion hx

/-- C3: the `k`-th sample buffer given to the decoder belongs to the `k`-th
unit found.  When the payload length `n` (unit length minus 4) is below `2 ^ 32`,
its first four bytes are bytes whose big-endian value is `n`, the rest is the
payload of the original file unchanged, and reading the length field and taking
that many bytes after it gives the payload back.  The file buffer keeps its
length and every byte outside the four start-code bytes of the units found. -/
theorem reformat_layout (svc : Services) (session : Bool) (b : List Nat) (k : Nat)
    (au : List Nat) (hk : (decodePass svc session b).submitted[k]? = some au) :
    (∃ u, (decodePass svc session b).units[k]? = some u ∧
      ((b.drop (u.nalStart + 4)).take (u.nalLength - 4)).length = u.nalLength - 4 ∧
      (u.nalLength - 4 < 2 ^ 32 →
        (au.take 4).length = 4 ∧ (∀ x ∈ au.take 4, x < 256) ∧
        beDecode (au.take 4) = u.nalLength - 4 ∧
        au.drop 4 = (b.drop (u.nalStart + 4)).take (u.nalLength - 4) ∧
        (au.drop 4).take (beDecode (au.take 4))
          = (b.drop (u.nalStart + 4)).take (u.nalLength - 4))) ∧
    (decodePass svc session b).buffer.length = b.length ∧
    ∀ j, (∀ u ∈ (decodePass svc session b).units, ¬ (u.nalStart ≤ j ∧ j < u.nalStart + 4)) →
      (decodePass svc session b).buffer[j]? = b[j]? := by
  obtain ⟨_, _, r3, r4, _⟩ := decodeLoop_spec svc session b b.length 0 b 0 rfl rfl
  refine ⟨?_, r3, r4⟩
  obtain ⟨u, hu, rfl⟩ := decodePass_submitted_get svc session b k au hk
  obtain ⟨m1, m2, _⟩ := decodePass_units_mem svc session b u (List.getElem?_mem hu)
  have hlen : ((b.drop (u.nalStart + 4)).take (u.nalLength - 4)).length = u.nalLength - 4 := by
    rw [List.length_take, List.length_drop]
    omega
  refine ⟨u, hu, hlen, fun hn => ?_⟩
  have ht : (accessUnit b u).take 4 = htonl (u.nalLength - 4) := by
    unfold accessUnit
    rw [List.take_append_of_le_length (by rw [htonl_length])]
    exact List.take_of_length_le (by rw [htonl_length])
  have hdp : (accessUnit b u).drop 4 = (b.drop (u.nalStart + 4)).take (u.nalLength - 4) := by
    unfold accessUnit
    rw [List.drop_append_of_le_length (by rw [htonl_length])]
    rw [List.drop_of_length_le (by rw [htonl_length]), List.nil_append]
  have hbe : beDecode (htonl (u.nalLength - 4)) = u.nalLength - 4 := by
    rw [beDecode_htonl, Nat.mod_eq_of_lt hn]
  rw [ht, hdp, hbe]
  refine ⟨htonl_length _, htonl_lt _, rfl, rfl, ?_⟩
  exact List.take_of_length_le (by rw [hlen])

theorem reformat_layout_witness :
    (decodePass okServices true scenarioA).submitted[0]? = some [0, 0, 0, 2, 0x67, 0x42] ∧
    (decodePass okServices true scenarioA).buffer.length = scenarioA.length :=
  ⟨by decide, (reformat_layout okServices true scenarioA 0 [0, 0, 0, 2, 0x67, 0x42]
    (by decide)).2.1⟩
theorem no_start_in_payload (p rest : List Nat) (hp : ¬ startCode <:+: p)
    (hrest : rest = [] ∨ ∃ t, rest = 0 :: 0 :: 0 :: 1 :: t) (j : Nat) (hj : j < p.length)
    (t : List Nat) : p.drop j ++ rest ≠ 0 :: 0 :: 0 :: 1 :: t := by
  intro h
  have hq : (p.drop j).length = p.length - j := List.length_drop j p
  match hqq : p.drop j, h, hq with
  | [], _, hq => simp at hq; omega
  | [a], h, _ =>
    rcases hrest with rfl | ⟨t', rfl⟩ <;> simp at h
  | [a, a2], h, _ =>
    rcases hrest with rfl | ⟨t', rfl⟩ <;> simp at h
  | [a, a2, a3], h, _ =>
    rcases hrest with rfl | ⟨t', rfl⟩ <;> simp at h
  | a :: a2 :: a3 :: a4 :: q, h, _ =>
    simp at h
    obtain ⟨rfl, rfl, rfl, rfl, _⟩ := h
    apply hp
    refine ⟨p.take j, q, ?_⟩
    have := List.take_append_drop j p
    rw [hqq] at this
    simpa [startCode] using this

theorem paramSetLoop_end (b : List Nat) (past fuel i : Nat) (st : ParamSets)
    (hi : b.length ≤ i) :
    paramSetLoop b b.length past fuel i st = { trace := [], store := st } := by
  cases fuel with
  | zero => rfl
  | succ fuel =>
    have : ¬ i < b.length := by omega
    simp [paramSetLoop, this]

theorem paramSetLoop_spec (b : List Nat) (past : Nat) : ∀ (fuel i : Nat) (st : ParamSets),
    (paramSetLoop b b.length past fuel i st).trace = (scanLoop b fuel i).map (paramView b past) ∧
    (paramSetLoop b b.length past fuel i st).store
      = ((scanLoop b fuel i).map (paramView b past)).foldl
          (fun st s => st.record s.header s.unit) st := by
  intro fuel
  induction fuel with
  | zero => intro i st; simp [paramSetLoop, scanLoop]
  | succ fuel ih =>
    intro i st
    by_cases hi : i < b.length
    · by_cases hs : startAt b i = true
      · have hle := startAt_le b i hs
        obtain ⟨g1, _, _, _⟩ := unitEnd_spec b i hle
        rw [scanLoop_succ_start b fuel i hs]
        have hs2 := hs
        unfold startAt at hs2
        rw [paramSetLoop]
        simp only [hi, if_true, hs2]
        have he : skipPayload b b.length (b.length - (i + 4)) (i + 4) = unitEnd b i := rfl
        have hsub : unitEnd b i - (i + 4) = unitEnd b i - i - 4 := by omega
        rw [he, hsub]
        obtain ⟨r1, r2⟩ := ih (unitEnd b i)
          (st.record (readHeader b past (i + 4))
            { nalStart := i + 4, nalLength := unitEnd b i - i - 4 })
        simp only [List.map_cons, List.foldl_cons, paramView, unitAt]
        exact ⟨by rw [r1], by rw [r2]⟩
      · simp only [Bool.not_eq_true] at hs
        rw [scanLoop_succ_skip b fuel i hi hs]
        have hs2 := hs
        unfold startAt at hs2
        rw [paramSetLoop]
        simp only [hi, if_true, hs2]
        exact ih (i + 1) st
    · rw [paramSetLoop_end b past _ i st (by omega), scanLoop_end b _ i (by omega)]
      simp
theorem annexB_cons (p : List Nat) (ps : List (List Nat)) :
    annexB (p :: ps) = startCode ++ (p ++ annexB ps) := by
  simp [annexB]

theorem annexB_head (ps : List (List Nat)) :
    annexB ps = [] ∨ ∃ t, annexB ps = 0 :: 0 :: 0 :: 1 :: t := by
  cases ps with
  | nil => left; rfl
  | cons p ps => right; exact ⟨p ++ annexB ps, by rw [annexB_cons]; rfl⟩

theorem drop_chunk (pre p rest : List Nat) (j : Nat) (hj : j ≤ p.length) :
    (pre ++ (startCode ++ (p ++ rest))).drop (pre.length + 4 + j) = p.drop j ++ rest := by
  have h1 : pre ++ (startCode ++ (p ++ rest)) = (pre ++ startCode) ++ (p ++ rest) := by
    simp
  have h2 : pre.length + 4 + j = (pre ++ startCode).length + j := by
    simp [startCode]
  rw [h1, h2, List.drop_append, List.drop_append_of_le_length hj]

theorem scanLoop_annexB : ∀ (ps : List (List Nat)) (pre : List Nat) (fuel : Nat),
    (∀ p ∈ ps, p ≠ [] ∧ ¬ startCode <:+: p) → (annexB ps).length ≤ fuel →
    scanLoop (pre ++ annexB ps) fuel pre.length = unitsOf pre.length ps := by
  intro ps
  induction ps with
  | nil =>
    intro pre fuel _ _
    rw [scanLoop_end _ _ _ (by simp [annexB])]
    rfl
  | cons p ps ih =>
    intro pre fuel hps hfuel
    have hp := hps p (List.mem_cons_self _ _)
    rw [annexB_cons] at hfuel ⊢
    have hlen : (pre ++ (startCode ++ (p ++ annexB ps))).length
        = pre.length + 4 + p.length + (annexB ps).length := by
      simp [startCode]; omega
    have hfl : (startCode ++ (p ++ annexB ps)).length = 4 + p.length + (annexB ps).length := by
      simp [startCode]; omega
    obtain ⟨g, rfl⟩ : ∃ g, fuel = g + 1 := ⟨fuel - 1, by omega⟩
    have hs : startAt (pre ++ (startCode ++ (p ++ annexB ps))) pre.length = true := by
      rw [startAt_iff]
      exact ⟨p ++ annexB ps, by simp [startCode]⟩
    have hend : unitEnd (pre ++ (startCode ++ (p ++ annexB ps))) pre.length
        = pre.length + 4 + p.length := by
      unfold unitEnd
      refine skipPayload_exact _ _ _ p.length (le_refl _) (by omega) ?_ ?_
      · intro j hj
        rw [Bool.eq_false_iff]
        intro hst
        rw [startAt_iff, drop_chunk pre p (annexB ps) j (by omega)] at hst
        obtain ⟨t, ht⟩ := hst
        exact no_start_in_payload p (annexB ps) hp.2 (annexB_head ps) j hj t ht
      · rcases annexB_head ps with h0 | ⟨t, ht⟩
        · left; rw [hlen, h0]; simp
        · right
          rw [startAt_iff, drop_chunk pre p (annexB ps) p.length (le_refl _)]
          exact ⟨t, by simp [ht]⟩
    rw [scanLoop_succ_start _ g _ hs, hend]
    have hb : pre ++ (startCode ++ (p ++ annexB ps)) = (pre ++ startCode ++ p) ++ annexB ps := by
      simp
    have hl2 : pre.length + 4 + p.length = (pre ++ startCode ++ p).length := by
      simp [startCode]; omega
    have hu : unitAt (pre ++ (startCode ++ (p ++ annexB ps))) pre.length
        = { nalStart := pre.length, nalLength := 4 + p.length } := by
      simp only [unitAt, hend]
      congr 1
      omega
    rw [hu]
    simp only [unitsOf]
    congr 1
    rw [hb, hl2]
    exact ih _ g (fun q hq => hps q (List.mem_cons_of_mem _ hq)) (by omega)
theorem paramView_unitsOf (past : Nat) : ∀ (ps : List (List Nat)) (pre : List Nat),
    (∀ p ∈ ps, p ≠ []) →
    (unitsOf pre.length ps).map (paramView (pre ++ annexB ps) past) = scannedOf pre.length ps := by
  intro ps
  induction ps with
  | nil => intro pre _; rfl
  | cons p ps ih =>
    intro pre hps
    have hp := hps p (List.mem_cons_self _ _)
    obtain ⟨x, q, rfl⟩ := List.exists_cons_of_ne_nil hp
    have hb : pre ++ annexB ((x :: q) :: ps) = (pre ++ startCode ++ (x :: q)) ++ annexB ps := by
      rw [annexB_cons]; simp
    have hl2 : pre.length + 4 + (x :: q).length = (pre ++ startCode ++ (x :: q)).length := by
      simp [startCode]; omega
    have hhd : readHeader (pre ++ annexB ((x :: q) :: ps)) past (pre.length + 4) = x := by
      have hd := drop_chunk pre (x :: q) (annexB ps) 0 (Nat.zero_le _)
      rw [← annexB_cons] at hd
      have : (pre ++ annexB ((x :: q) :: ps))[pre.length + 4]? = some x := by
        have h0 : ((pre ++ annexB ((x :: q) :: ps)).drop (pre.length + 4 + 0))[0]? = some x := by
          rw [hd]; simp
        rw [List.getElem?_drop] at h0
        exact h0
      rw [readHeader, List.getD_eq_getElem?_getD, this]
      rfl
    simp only [unitsOf, scannedOf, List.map_cons]
    congr 1
    · simp only [paramView, hhd]
      simp
    · rw [hb, hl2]
      exact ih _ (fun r hr => hps r (List.mem_cons_of_mem _ hr))

theorem paramSetPass_eq (b : List Nat) (past : Nat) :
    (paramSetPass b past).trace = (scanLoop b b.length 0).map (paramView b past) ∧
    (paramSetPass b past).store
      = (paramSetPass b past).trace.foldl (fun st s => st.record s.header s.unit)
          ParamSets.init := by
  obtain ⟨h1, h2⟩ := paramSetLoop_spec b past b.length 0 ParamSets.init
  unfold paramSetPass
  exact ⟨h1, by rw [h2, h1]⟩

theorem paramSetPass_trace_annexB (ps : List (List Nat)) (past : Nat)
    (hps : ∀ p ∈ ps, p ≠ [] ∧ ¬ startCode <:+: p) :
    (paramSetPass (annexB ps) past).trace = scannedOf 0 ps := by
  rw [(paramSetPass_eq (annexB ps) past).1]
  have h1 := scanLoop_annexB ps [] (annexB ps).length hps (le_refl _)
  have h2 := paramView_unitsOf past ps [] (fun p hp => (hps p hp).1)
  simp only [List.nil_append, List.length_nil] at h1 h2
  rw [h1, h2]

theorem decodeUnit_cases (svc : Services) (session : Bool) (k : Nat) (buf b : List Nat)
    (u : NalUnit) (hd : buf.drop u.nalStart = b.drop u.nalStart) (hl : buf.length = b.length)
    (h4 : 4 ≤ u.nalLength) (hle : u.nalStart + u.nalLength ≤ b.length) :
    (svc.blockBufferCreate k (u.bytes b) ≠ noErr →
      (decodeUnit svc session k buf u).failure = some .blockBuffer ∧
      (decodeUnit svc session k buf u).submitted = []) ∧
    (svc.blockBufferCreate k (u.bytes b) = noErr →
      svc.replaceDataBytes k (u.bytes b) ≠ noErr →
      (decodeUnit svc session k buf u).failure = some .replaceDataBytes ∧
      (decodeUnit svc session k buf u).submitted = []) ∧
    (svc.blockBufferCreate k (u.bytes b) = noErr →
      svc.replaceDataBytes k (u.bytes b) = noErr →
      svc.sampleBufferCreate k (accessUnit b u) ≠ noErr →
      (decodeUnit svc session k buf u).failure = some .sampleBuffer ∧
      (decodeUnit svc session k buf u).submitted = []) ∧
    (svc.blockBufferCreate k (u.bytes b) = noErr →
      svc.replaceDataBytes k (u.bytes b) = noErr →
      svc.sampleBufferCreate k (accessUnit b u) = noErr →
      svc.decodeFrame session k (accessUnit b u) ≠ noErr →
      (decodeUnit svc session k buf u).failure = some .decodeFrame ∧
      (decodeUnit svc session k buf u).submitted = [accessUnit b u]) ∧
    (svc.blockBufferCreate k (u.bytes b) = noErr →
      svc.replaceDataBytes k (u.bytes b) = noErr →
      svc.sampleBufferCreate k (accessUnit b u) = noErr →
      svc.decodeFrame session k (accessUnit b u) = noErr →
      (decodeUnit svc session k buf u).failure = none ∧
      (decodeUnit svc session k buf u).submitted = [accessUnit b u]) := by
  obtain ⟨i, l⟩ := u
  simp only at hd h4 hle ⊢
  have hi : i ≤ buf.length := by omega
  have e4 := bytes_replaceBytes buf b i l hd hi h4
  have e5 : NalUnit.bytes { nalStart := i, nalLength := l } buf
      = NalUnit.bytes { nalStart := i, nalLength := l } b := by
    simp only [NalUnit.bytes, hd]
  unfold decodeUnit
  simp only [e4, e5]
  refine ⟨fun h1 => ?_, fun h1 h2 => ?_, fun h1 h2 h3 => ?_, fun h1 h2 h3 h5 => ?_,
    fun h1 h2 h3 h5 => ?_⟩
  · simp [h1]
  · simp [h1, h2]
  · simp [h1, h2, h3]
  · simp [h1, h2, h3, h5]
  · simp [h1, h2, h3, h5]
theorem decodeLoop_abort (svc : Services) (session : Bool) (b : List Nat) :
    ∀ (fuel k : Nat) (buf : List Nat) (i : Nat), buf.length = b.length →
      buf.drop i = b.drop i →
      ((decodeLoop svc session b.length fuel k buf i).outcome = .goodbye ∨
        (decodeLoop svc session b.length fuel k buf i).outcome = .blockBuffer ∨
        (decodeLoop svc session b.length fuel k buf i).outcome = .replaceDataBytes ∨
        (decodeLoop svc session b.length fuel k buf i).outcome = .sampleBuffer ∨
        (decodeLoop svc session b.length fuel k buf i).outcome = .decodeFrame) ∧
      (∀ j au, (decodeLoop svc session b.length fuel k buf i).submitted[j]? = some au →
        svc.decodeFrame session (k + j) au ≠ noErr →
        (decodeLoop svc session b.length fuel k buf i).submitted.length = j + 1 ∧
        (decodeLoop svc session b.length fuel k buf i).outcome = .decodeFrame) ∧
      (∀ j u, (decodeLoop svc session b.length fuel k buf i).units[j]? = some u →
        svc.blockBufferCreate (k + j) (u.bytes b) = noErr →
        svc.replaceDataBytes (k + j) (u.bytes b) ≠ noErr →
        (decodeLoop svc session b.length fuel k buf i).units.length = j + 1 ∧
        (decodeLoop svc session b.length fuel k buf i).submitted.length = j ∧
        (decodeLoop svc session b.length fuel k buf i).outcome = .replaceDataBytes) := by
  intro fuel
  induction fuel with
  | zero =>
    intro k buf i _ _
    simp [decodeLoop]
  | succ fuel ih =>
    intro k buf i hl hd
    by_cases hi : i < b.length
    · by_cases hs : startAt b i = true
      · have hle := startAt_le b i hs
        obtain ⟨g1, g2, _, _⟩ := unitEnd_spec b i hle
        have hu1 : (unitAt b i).nalStart = i := rfl
        have hu2 : (unitAt b i).nalLength = unitEnd b i - i := rfl
        have hu4 : 4 ≤ (unitAt b i).nalLength := by rw [hu2]; omega
        have hule : (unitAt b i).nalStart + (unitAt b i).nalLength ≤ b.length := by
          rw [hu1, hu2]; omega
        obtain ⟨s1, s2, _, _, _, _⟩ := decodeUnit_spec svc session k buf b (unitAt b i)
          hd hl hu4 hule
        rw [hu1] at s2
        obtain ⟨c1, c2, c3, c4, c5⟩ := decodeUnit_cases svc session k buf b (unitAt b i)
          hd hl hu4 hule
        by_cases hbb : svc.blockBufferCreate k ((unitAt b i).bytes b) = noErr
        · by_cases hrd : svc.replaceDataBytes k ((unitAt b i).bytes b) = noErr
          · by_cases hsb : svc.sampleBufferCreate k (accessUnit b (unitAt b i)) = noErr
            · by_cases hdf : svc.decodeFrame session k (accessUnit b (unitAt b i)) = noErr
              · obtain ⟨hf, hsub⟩ := c5 hbb hrd hsb hdf
                rw [decodeLoop_succ_ok svc session b buf fuel k i hd hs hf]
                obtain ⟨r1, r2, r3⟩ := ih (k + 1)
                  (decodeUnit svc session k buf (unitAt b i)).buffer (unitEnd b i) s1
                  (drop_eq_of_le s2 (unitEnd b i) g1)
                refine ⟨r1, ?_, ?_⟩
                · intro j au hj hne
                  simp only [hsub, List.singleton_append] at hj ⊢
                  cases j with
                  | zero =>
                    simp only [List.getElem?_cons_zero, Option.some.injEq] at hj
                    rw [← hj] at hne
                    exact absurd hdf hne
                  | succ j =>
                    simp only [List.getElem?_cons_succ] at hj
                    have := r2 j au hj (by rw [show k + 1 + j = k + (j + 1) by omega]; exact hne)
                    simp only [List.length_cons]
                    exact ⟨by omega, this.2⟩
                · intro j u hj h1 h2
                  simp only [hsub, List.singleton_append] at hj ⊢
                  cases j with
                  | zero =>
                    simp only [List.getElem?_cons_zero, Option.some.injEq] at hj
                    rw [← hj] at h2
                    exact absurd hrd h2
                  | succ j =>
                    simp only [List.getElem?_cons_succ] at hj
                    have := r3 j u hj (by rw [show k + 1 + j = k + (j + 1) by omega]; exact h1)
                      (by rw [show k + 1 + j = k + (j + 1) by omega]; exact h2)
                    simp only [List.length_cons]
                    exact ⟨by omega, by omega, this.2.2⟩
              · obtain ⟨hf, hsub⟩ := c4 hbb hrd hsb hdf
                rw [decodeLoop_succ_fail svc session b buf fuel k i hd hs _ hf]
                refine ⟨by simp, ?_, ?_⟩
                · intro j au hj _
                  simp only [hsub] at hj ⊢
                  cases j with
                  | zero => simp
                  | succ j => simp at hj
                · intro j u hj h1 h2
                  cases j with
                  | zero =>
                    simp only [List.getElem?_cons_zero, Option.some.injEq] at hj
                    rw [← hj] at h2
                    exact absurd hrd h2
                  | succ j => simp at hj
            · obtain ⟨hf, hsub⟩ := c3 hbb hrd hsb
              rw [decodeLoop_succ_fail svc session b buf fuel k i hd hs _ hf]
              refine ⟨by simp, ?_, ?_⟩
              · intro j au hj _
                simp [hsub] at hj
              · intro j u hj h1 h2
                cases j with
                | zero =>
                  simp only [List.getElem?_cons_zero, Option.some.injEq] at hj
                  rw [← hj] at h2
                  exact absurd hrd h2
                | succ j => simp at hj
          · obtain ⟨hf, hsub⟩ := c2 hbb hrd
            rw [decodeLoop_succ_fail svc session b buf fuel k i hd hs _ hf]
            refine ⟨by simp, ?_, ?_⟩
            · intro j au hj _
              simp [hsub] at hj
            · intro j u hj h1 h2
              cases j with
              | zero => simp [hsub]
              | succ j => simp at hj
        · obtain ⟨hf, hsub⟩ := c1 hbb
          rw [decodeLoop_succ_fail svc session b buf fuel k i hd hs _ hf]
          refine ⟨by simp, ?_, ?_⟩
          · intro j au hj _
            simp [hsub] at hj
          · intro j u hj h1 h2
            cases j with
            | zero =>
              simp only [List.getElem?_cons_zero, Option.some.injEq] at hj
              rw [← hj] at h1
              exact absurd h1 hbb
            | succ j => simp at hj
      · simp only [Bool.not_eq_true] at hs
        rw [decodeLoop_succ_skip svc session b buf fuel k i hd hi hs]
        exact ih k buf (i + 1) hl (drop_eq_of_le hd (i + 1) (by omega))
    · rw [decodeLoop_end svc session b.length _ k buf i (by omega)]
      simp
theorem record_inv (st : ParamSets) (s : Scanned) (A B : Prop)
    (hA : st.spsData ≠ none ↔ A) (hB : st.ppsData ≠ none ↔ B)
    (hF : st.foundSpsPps = true ↔ A ∧ B) :
    ((st.record s.header s.unit).spsData ≠ none ↔ A ∨ s.nalType = 7) ∧
    ((st.record s.header s.unit).ppsData ≠ none ↔ B ∨ s.nalType = 8) ∧
    ((st.record s.header s.unit).foundSpsPps = true ↔
      (A ∨ s.nalType = 7) ∧ (B ∨ s.nalType = 8)) := by
  obtain ⟨sps, pps, ssz, psz, fnd⟩ := st
  simp only at hA hB hF
  unfold ParamSets.record Scanned.nalType
  simp only [NAL_SPS, NAL_PPS]
  by_cases h7 : s.header &&& 0x1F = 7
  · have h8 : ¬ s.header &&& 0x1F = 8 := by rw [h7]; decide
    simp only [h7, beq_self_eq_true, if_true]
    cases pps with
    | none =>
      simp only [ne_eq, not_true_eq_false, false_iff] at hB
      simp [hB, hF]
    | some q =>
      simp only [ne_eq, reduceCtorEq, not_false_eq_true, true_iff] at hB
      simp [hB]
  · by_cases h8 : s.header &&& 0x1F = 8
    · simp only [h8, beq_self_eq_true, if_true]
      have : ¬ ((8 : Nat) == 7) = true := by decide
      simp only [this, if_false]
      cases sps with
      | none =>
        simp only [ne_eq, not_true_eq_false, false_iff] at hA
        simp [hA, hF]
      | some q =>
        simp only [ne_eq, reduceCtorEq, not_false_eq_true, true_iff] at hA
        simp [hA]
    · have e7 : ¬ (s.header &&& 0x1F == 7) = true := by simpa using h7
      have e8 : ¬ (s.header &&& 0x1F == 8) = true := by simpa using h8
      simp only [e7, e8, if_false, h7, h8, or_false]
      cases sps with
      | none =>
        simp only [ne_eq, not_true_eq_false, false_iff] at hA
        simp only [ne_eq] at hB
        simp [hA, hF, hB]
      | some q =>
        simp only [ne_eq, reduceCtorEq, not_false_eq_true, true_iff] at hA
        cases pps with
        | none =>
          simp only [ne_eq, not_true_eq_false, false_iff] at hB
          simp [hA, hB, hF]
        | some q2 =>
          simp only [ne_eq, reduceCtorEq, not_false_eq_true, true_iff] at hB
          simp [hA, hB]

theorem foldl_record_inv : ∀ (l : List Scanned) (st : ParamSets) (A B : Prop),
    (st.spsData ≠ none ↔ A) → (st.ppsData ≠ none ↔ B) → (st.foundSpsPps = true ↔ A ∧ B) →
    ((l.foldl (fun st s => st.record s.header s.unit) st).foundSpsPps = true ↔
      (A ∨ ∃ s ∈ l, s.nalType = 7) ∧ (B ∨ ∃ s ∈ l, s.nalType = 8)) := by
  intro l
  induction l with
  | nil => intro st A B _ _ hF; simpa using hF
  | cons s l ih =>
    intro st A B hA hB hF
    obtain ⟨h1, h2, h3⟩ := record_inv st s A B hA hB hF
    rw [List.foldl_cons, ih _ _ _ h1 h2 h3]
    simp only [List.mem_cons, exists_eq_or_imp, or_assoc]

theorem found_iff (l : List Scanned) :
    (l.foldl (fun st s => st.record s.header s.unit) ParamSets.init).foundSpsPps = true ↔
      (∃ s ∈ l, s.nalType = 7) ∧ (∃ s ∈ l, s.nalType = 8) := by
  have := foldl_record_inv l ParamSets.init False False (by simp [ParamSets.init])
    (by simp [ParamSets.init]) (by simp [ParamSets.init])
  simpa using this
theorem decodePass_outcome (svc : Services) (session : Bool) (b : List Nat) :
    (decodePass svc session b).outcome = .goodbye ∨
    (decodePass svc session b).outcome = .blockBuffer ∨
    (decodePass svc session b).outcome = .replaceDataBytes ∨
    (decodePass svc session b).outcome = .sampleBuffer ∨
    (decodePass svc session b).outcome = .decodeFrame :=
  (decodeLoop_abort svc session b b.length 0 b 0 rfl rfl).1

theorem main_noSpsPps (libc : FcloseAgain) (svc : Services) (past : Nat) (b : List Nat)
    (h : (paramSetPass b past).store.foundSpsPps = false) :
    main libc svc past b =
      { exitStatus := fcloseThenReturn libc 0, outcome := .noSpsPps, params := paramSetPass b past,
        formatDescriptionCall := none, units := [], submitted := [], buffer := b } := by
  simp [main, h]

theorem main_formatDescription (libc : FcloseAgain) (svc : Services) (past : Nat) (b : List Nat)
    (h : (paramSetPass b past).store.foundSpsPps = true)
    (hfd : svc.formatDescriptionCreate (spsBytes b (paramSetPass b past).store)
      (ppsBytes b (paramSetPass b past).store) ≠ noErr) :
    main libc svc past b =
      { exitStatus := fcloseThenReturn libc 0, outcome := .formatDescription, params := paramSetPass b past,
        formatDescriptionCall := some (spsBytes b (paramSetPass b past).store,
          ppsBytes b (paramSetPass b past).store),
        units := [], submitted := [], buffer := b } := by
  simp [main, h, hfd]

theorem main_dictionary (libc : FcloseAgain) (svc : Services) (past : Nat) (b : List Nat)
    (h : (paramSetPass b past).store.foundSpsPps = true)
    (hfd : svc.formatDescriptionCreate (spsBytes b (paramSetPass b past).store)
      (ppsBytes b (paramSetPass b past).store) = noErr)
    (hpx : svc.pixelFormatDescription = false) :
    main libc svc past b =
      { exitStatus := fcloseThenReturn libc 0, outcome := .dictionary, params := paramSetPass b past,
        formatDescriptionCall := some (spsBytes b (paramSetPass b past).store,
          ppsBytes b (paramSetPass b past).store),
        units := [], submitted := [], buffer := b } := by
  simp [main, h, hfd, hpx]

theorem main_decode (libc : FcloseAgain) (svc : Services) (past : Nat) (b : List Nat)
    (h : (paramSetPass b past).store.foundSpsPps = true)
    (hfd : svc.formatDescriptionCreate (spsBytes b (paramSetPass b past).store)
      (ppsBytes b (paramSetPass b past).store) = noErr)
    (hpx : svc.pixelFormatDescription = true) :
    main libc svc past b =
      { exitStatus := fcloseThenReturn libc 0,
        outcome := (decodePass svc (svc.sessionCreate == noErr) b).outcome,
        params := paramSetPass b past,
        formatDescriptionCall := some (spsBytes b (paramSetPass b past).store,
          ppsBytes b (paramSetPass b past).store),
        units := (decodePass svc (svc.sessionCreate == noErr) b).units,
        submitted := (decodePass svc (svc.sessionCreate == noErr) b).submitted,
        buffer := (decodePass svc (svc.sessionCreate == noErr) b).buffer } := by
  simp [main, h, hfd, hpx]

theorem main_cases (libc : FcloseAgain) (svc : Services) (past : Nat) (b : List Nat)
    (P : Run → Prop)
    (h1 : (paramSetPass b past).store.foundSpsPps = false →
      P { exitStatus := fcloseThenReturn libc 0, outcome := .noSpsPps, params := paramSetPass b past,
          formatDescriptionCall := none, units := [], submitted := [], buffer := b })
    (h2 : (paramSetPass b past).store.foundSpsPps = true →
      svc.formatDescriptionCreate (spsBytes b (paramSetPass b past).store)
        (ppsBytes b (paramSetPass b past).store) ≠ noErr →
      P { exitStatus := fcloseThenReturn libc 0, outcome := .formatDescription, params := paramSetPass b past,
          formatDescriptionCall := some (spsBytes b (paramSetPass b past).store,
            ppsBytes b (paramSetPass b past).store),
          units := [], submitted := [], buffer := b })
    (h3 : (paramSetPass b past).store.foundSpsPps = true →
      svc.formatDescriptionCreate (spsBytes b (paramSetPass b past).store)
        (ppsBytes b (paramSetPass b past).store) = noErr →
      svc.pixelFormatDescription = false →
      P { exitStatus := fcloseThenReturn libc 0, outcome := .dictionary, params := paramSetPass b past,
          formatDescriptionCall := some (spsBytes b (paramSetPass b past).store,
            ppsBytes b (paramSetPass b past).store),
          units := [], submitted := [], buffer := b })
    (h4 : (paramSetPass b past).store.foundSpsPps = true →
      svc.formatDescriptionCreate (spsBytes b (paramSetPass b past).store)
        (ppsBytes b (paramSetPass b past).store) = noErr →
      svc.pixelFormatDescription = true →
      P { exitStatus := fcloseThenReturn libc 0,
          outcome := (decodePass svc (svc.sessionCreate == noErr) b).outcome,
          params := paramSetPass b past,
          formatDescriptionCall := some (spsBytes b (paramSetPass b past).store,
            ppsBytes b (paramSetPass b past).store),
          units := (decodePass svc (svc.sessionCreate == noErr) b).units,
          submitted := (decodePass svc (svc.sessionCreate == noErr) b).submitted,
          buffer := (decodePass svc (svc.sessionCreate == noErr) b).buffer }) :
    P (main libc svc past b) := by
  cases hf : (paramSetPass b past).store.foundSpsPps with
  | false => rw [main_noSpsPps libc svc past b hf]; exact h1 hf
  | true =>
    by_cases hfd : svc.formatDescriptionCreate (spsBytes b (paramSetPass b past).store)
        (ppsBytes b (paramSetPass b past).store) = noErr
    · cases hpx : svc.pixelFormatDescription with
      | false => rw [main_dictionary libc svc past b hf hfd hpx]; exact h3 hf hfd hpx
      | true => rw [main_decode libc svc past b hf hfd hpx]; exact h4 hf hfd hpx
    · rw [main_formatDescription libc svc past b hf hfd]; exact h2 hf hfd

theorem main_libc (libc : FcloseAgain) (svc : Services) (past : Nat) (b : List Nat) :
    (main libc svc past b).outcome = (main .returns svc past b).outcome ∧
    (main libc svc past b).params = (main .returns svc past b).params ∧
    (main libc svc past b).formatDescriptionCall
      = (main .returns svc past b).formatDescriptionCall ∧
    (main libc svc past b).units = (main .returns svc past b).units ∧
    (main libc svc past b).submitted = (main .returns svc past b).submitted ∧
    (main libc svc past b).buffer = (main .returns svc past b).buffer := by
  refine main_cases libc svc past b (fun r =>
    r.outcome = (main .returns svc past b).outcome ∧
    r.params = (main .returns svc past b).params ∧
    r.formatDescriptionCall = (main .returns svc past b).formatDescriptionCall ∧
    r.units = (main .returns svc past b).units ∧
    r.submitted = (main .returns svc past b).submitted ∧
    r.buffer = (main .returns svc past b).buffer) ?_ ?_ ?_ ?_
  · intro h
    rw [main_noSpsPps .returns svc past b h]
    exact ⟨rfl, rfl, rfl, rfl, rfl, rfl⟩
  · intro h hfd
    rw [main_formatDescription .returns svc past b h hfd]
    exact ⟨rfl, rfl, rfl, rfl, rfl, rfl⟩
  · intro h hfd hpx
    rw [main_dictionary .returns svc past b h hfd hpx]
    exact ⟨rfl, rfl, rfl, rfl, rfl, rfl⟩
  · intro h hfd hpx
    rw [main_decode .returns svc past b h hfd hpx]
    exact ⟨rfl, rfl, rfl, rfl, rfl, rfl⟩

theorem mem_take_of_le {α : Type} (l : List α) (k k2 : Nat) (h : k ≤ k2) (x : α)
    (hx : x ∈ l.take k) : x ∈ l.take k2 := by
  have : l.take k = (l.take k2).take k := by
    rw [List.take_take, Nat.min_eq_left h]
  rw [this] at hx
  exact List.mem_of_mem_take hx

/-- C8 fails as stated: on scenario C (one SPS, one PPS, no slice) the run ends
normally and the decode pass has submitted two sample buffers, the SPS and the
PPS. -/
theorem parameter_sets_submitted :
    (paramSetPass scenarioC 0).trace.map Scanned.nalType = [NAL_SPS, NAL_PPS] ∧
    ∀ libc,
      (main libc okServices 0 scenarioC).outcome = .goodbye ∧
      (main libc okServices 0 scenarioC).params.trace.map Scanned.nalType
        = [NAL_SPS, NAL_PPS] ∧
      (main libc okServices 0 scenarioC).submitted
        = [[0, 0, 0, 2, 0x67, 0x42], [0, 0, 0, 2, 0x68, 0xCE]] ∧
      (main libc okServices 0 scenarioC).submitted.length ≠ 0 := by
  refine ⟨by decide, fun libc => ?_⟩
  obtain ⟨h1, h2, _, _, h5, _⟩ := main_libc libc okServices 0 scenarioC
  rw [h1, h2, h5]
  decide

/-- C8, amended: when the run ends normally, the sample buffers submitted are, in
file order, all the units found, each one reformatted and submitted once; they
are the same units the parameter-set pass scanned, whatever their type, SPS and
PPS included. -/
theorem submitted_all_units (libc : FcloseAgain) (svc : Services) (past : Nat) (b : List Nat)
    (h : (main libc svc past b).outcome = .goodbye) :
    (main libc svc past b).submitted = (main libc svc past b).units.map (accessUnit b) ∧
    (main libc svc past b).params.trace = (main libc svc past b).units.map (paramView b past) ∧
    (main libc svc past b).submitted.length = (main libc svc past b).params.trace.length ∧
    ∀ (k : Nat) (s : Scanned), (main libc svc past b).params.trace[k]? = some s →
      ∃ au : List Nat, (main libc svc past b).submitted[k]? = some au ∧
        au.drop 4 = s.unit.bytes b := by
  revert h
  refine main_cases libc svc past b (fun r => r.outcome = .goodbye →
    r.submitted = r.units.map (accessUnit b) ∧
    r.params.trace = r.units.map (paramView b past) ∧
    r.submitted.length = r.params.trace.length ∧
    ∀ (k : Nat) (s : Scanned), r.params.trace[k]? = some s →
      ∃ au : List Nat, r.submitted[k]? = some au ∧ au.drop 4 = s.unit.bytes b) ?_ ?_ ?_ ?_
  · intro _ h; simp at h
  · intro _ _ h; simp at h
  · intro _ _ _ h; simp at h
  · intro _ _ _ h
    simp only at h ⊢
    obtain ⟨_, _, _, _, r5, _⟩ :=
      decodeLoop_spec svc (svc.sessionCreate == noErr) b b.length 0 b 0 rfl rfl
    obtain ⟨q1, q2⟩ := r5 h
    have e1 : (decodePass svc (svc.sessionCreate == noErr) b).units = scanLoop b b.length 0 := q1
    have e2 : (decodePass svc (svc.sessionCreate == noErr) b).submitted
        = (scanLoop b b.length 0).map (accessUnit b) := q2
    rw [e1, e2, (paramSetPass_eq b past).1]
    refine ⟨rfl, rfl, by simp, ?_⟩
    intro k s hk
    rw [List.getElem?_map] at hk ⊢
    cases hu : (scanLoop b b.length 0)[k]? with
    | none => rw [hu] at hk; simp at hk
    | some u =>
      rw [hu] at hk
      simp only [Option.map_some', Option.some.injEq] at hk
      refine ⟨accessUnit b u, rfl, ?_⟩
      rw [← hk]
      simp only [accessUnit, paramView, NalUnit.bytes]
      rw [List.drop_append_of_le_length (by rw [htonl_length]),
        List.drop_of_length_le (by rw [htonl_length]), List.nil_append]

theorem submitted_all_units_witness :
    (main .returns okServices 0 scenarioA).outcome = .goodbye ∧
    (main .returns okServices 0 scenarioA).submitted.length
      = (main .returns okServices 0 scenarioA).params.trace.length :=
  ⟨by decide, (submitted_all_units .returns okServices 0 scenarioA (by decide)).2.2.1⟩
theorem main_three_units (libc : FcloseAgain) (p : List Nat) (past : Nat) (hp1 : p ≠ [])
    (hp2 : ¬ startCode <:+: p) :
    (main libc okServices past (annexB [[0x67, 0x42], [0x68, 0xCE], p])).outcome = .goodbye ∧
    (main libc okServices past (annexB [[0x67, 0x42], [0x68, 0xCE], p])).submitted[2]?
      = some (htonl p.length ++ p) := by
  have hps : ∀ q ∈ [[0x67, 0x42], [0x68, 0xCE], p], q ≠ [] ∧ ¬ startCode <:+: q := by
    intro q hq
    simp only [List.mem_cons, List.mem_singleton, List.not_mem_nil, or_false] at hq
    rcases hq with rfl | rfl | rfl
    · decide
    · decide
    · exact ⟨hp1, hp2⟩
  have ht := paramSetPass_trace_annexB _ past hps
  have hfound : (paramSetPass (annexB [[0x67, 0x42], [0x68, 0xCE], p]) past).store.foundSpsPps
      = true := by
    rw [(paramSetPass_eq _ past).2, found_iff, ht]
    simp only [scannedOf]
    exact ⟨⟨_, List.mem_cons_self _ _, by decide⟩,
      ⟨_, List.mem_cons_of_mem _ (List.mem_cons_self _ _), by decide⟩⟩
  have hfd : ∀ x y : List Nat, okServices.formatDescriptionCreate x y = noErr :=
    fun _ _ => rfl
  have hpx : okServices.pixelFormatDescription = true := rfl
  have hm := main_decode libc okServices past _ hfound (hfd _ _) hpx
  obtain ⟨_, h2, h3⟩ := decodePass_units okServices (okServices.sessionCreate == noErr)
    (annexB [[0x67, 0x42], [0x68, 0xCE], p]) okServices_acceptsAll
  have hs := scanLoop_annexB [[0x67, 0x42], [0x68, 0xCE], p] [] _ hps (le_refl _)
  simp only [List.nil_append, List.length_nil] at hs
  rw [hs] at h2
  simp only [unitsOf, List.map_cons, List.map_nil] at h2
  have ho : (main libc okServices past (annexB [[0x67, 0x42], [0x68, 0xCE], p])).outcome
      = (decodePass okServices (okServices.sessionCreate == noErr)
          (annexB [[0x67, 0x42], [0x68, 0xCE], p])).outcome := by rw [hm]
  have hsub : (main libc okServices past (annexB [[0x67, 0x42], [0x68, 0xCE], p])).submitted
      = (decodePass okServices (okServices.sessionCreate == noErr)
          (annexB [[0x67, 0x42], [0x68, 0xCE], p])).submitted := by rw [hm]
  rw [ho, hsub, h3, h2]
  refine ⟨rfl, ?_⟩
  have hb : annexB [[0x67, 0x42], [0x68, 0xCE], p]
      = [0, 0, 0, 1, 0x67, 0x42, 0, 0, 0, 1, 0x68, 0xCE, 0, 0, 0, 1] ++ p := by
    simp [annexB, startCode]
  have hdrop : (annexB [[0x67, 0x42], [0x68, 0xCE], p]).drop 16 = p := by
    rw [hb]
    exact List.drop_left' rfl
  simp only [List.getElem?_cons_succ, List.getElem?_cons_zero, Option.some.injEq, accessUnit,
    List.length_cons, List.length_nil]
  rw [Nat.add_sub_cancel_left, hdrop, List.take_length]

theorem hugePayload_length : hugePayload.length = 2 ^ 32 := by
  unfold hugePayload
  exact List.length_replicate _ _

theorem hugePayload_ne_nil : hugePayload ≠ [] := by
  intro h
  have := congrArg List.length h
  rw [hugePayload_length] at this
  exact absurd this (by norm_num)

theorem hugePayload_no_startCode : ¬ startCode <:+: hugePayload := by
  rintro ⟨s, t, h⟩
  have h0 : (0 : Nat) ∈ s ++ startCode ++ t := by simp [startCode]
  rw [h] at h0
  have := List.eq_of_mem_replicate h0
  exact absurd this (by norm_num)

/-- C5 fails as stated: for a file with an SPS, a PPS and a slice whose payload
has `2 ^ 32` bytes, with every framework call succeeding, the run ends normally
and the third sample buffer submitted is the length field `00 00 00 00`
followed by the `2 ^ 32` payload bytes. -/
theorem length_field_truncated :
    hugePayload.length = 2 ^ 32 ∧
    (∀ libc, (main libc okServices 0 hugeFile).outcome = .goodbye ∧
      (main libc okServices 0 hugeFile).submitted[2]? = some ([0, 0, 0, 0] ++ hugePayload)) ∧
    beDecode [0, 0, 0, 0] ≠ hugePayload.length := by
  refine ⟨hugePayload_length, fun libc => ?_, ?_⟩
  obtain ⟨h1, h2⟩ := main_three_units libc hugePayload 0 hugePayload_ne_nil
    hugePayload_no_startCode
  refine ⟨h1, ?_⟩
  · have e : htonl hugePayload.length = [0, 0, 0, 0] := by
      rw [hugePayload_length]
      simp [htonl]
    rw [← e]
    exact h2
  · rw [hugePayload_length]
    simp [beDecode]

/-- C5, amended: the reformat step has no length check.  The length field of
every sample buffer submitted is the payload length modulo `2 ^ 32`, followed
by the whole payload; for a payload of `2 ^ 32` bytes or more the field is
smaller than the payload length.  When every framework call succeeds the
decode pass ends normally and has submitted every unit found, whatever the
lengths. -/
theorem length_field_mod (svc : Services) (session : Bool) (b : List Nat) :
    (∀ (k : Nat) (au : List Nat), (decodePass svc session b).submitted[k]? = some au →
      ∃ u, (decodePass svc session b).units[k]? = some u ∧
        beDecode (au.take 4) = (u.nalLength - 4) % 2 ^ 32 ∧
        au.drop 4 = (b.drop (u.nalStart + 4)).take (u.nalLength - 4) ∧
        ((b.drop (u.nalStart + 4)).take (u.nalLength - 4)).length = u.nalLength - 4 ∧
        (2 ^ 32 ≤ u.nalLength - 4 → beDecode (au.take 4) < u.nalLength - 4)) ∧
    (svc.AcceptsAll →
      (decodePass svc session b).outcome = .goodbye ∧
      (decodePass svc session b).submitted.length = (decodePass svc session b).units.length) := by
  constructor
  · intro k au hk
    obtain ⟨u, hu, rfl⟩ := decodePass_submitted_get svc session b k au hk
    obtain ⟨m1, m2, _⟩ := decodePass_units_mem svc session b u (List.getElem?_mem hu)
    have ht : (accessUnit b u).take 4 = htonl (u.nalLength - 4) := by
      unfold accessUnit
      rw [List.take_append_of_le_length (by rw [htonl_length])]
      exact List.take_of_length_le (by rw [htonl_length])
    have hdp : (accessUnit b u).drop 4 = (b.drop (u.nalStart + 4)).take (u.nalLength - 4) := by
      unfold accessUnit
      rw [List.drop_append_of_le_length (by rw [htonl_length])]
      rw [List.drop_of_length_le (by rw [htonl_length]), List.nil_append]
    refine ⟨u, hu, by rw [ht, beDecode_htonl], hdp, ?_, fun hn => ?_⟩
    · rw [List.length_take, List.length_drop]
      omega
    · rw [ht, beDecode_htonl]
      have : (u.nalLength - 4) % 2 ^ 32 < 2 ^ 32 := Nat.mod_lt _ (by norm_num)
      omega
  · intro h
    obtain ⟨h1, h2, h3⟩ := decodePass_units svc session b h
    exact ⟨h3, by rw [h1, h2, List.length_map]⟩

theorem length_field_mod_witness :
    okServices.AcceptsAll ∧ (decodePass okServices true scenarioA).outcome = .goodbye :=
  ⟨okServices_acceptsAll,
    ((length_field_mod okServices true scenarioA).2 okServices_acceptsAll).1⟩
/-- C4: the code at its failing inputs.  In the file `00 00 00 01` the unit has
`nalStart = 4 = fileSize` and length 0, and the byte classified is the one after
the buffer; when that byte is `0x67` the empty unit is recorded as SPS, and
after a real SPS and PPS it replaces the SPS.  In scenario B the byte classified
for the empty unit is offset 4, the first byte of the next start code, outside
its empty payload; there only the second unit is recorded. -/
theorem zero_length_unit_classified :
    (∀ past, (paramSetPass [0, 0, 0, 1] past).trace
      = [{ unit := { nalStart := 4, nalLength := 0 }, header := past }]) ∧
    ([0, 0, 0, 1] : List Nat).length = 4 ∧
    (paramSetPass [0, 0, 0, 1] 0x67).store.spsData = some 4 ∧
    (paramSetPass [0, 0, 0, 1] 0x67).store.spsSize = 0 ∧
    (paramSetPass (scenarioC ++ [0, 0, 0, 1]) 0x67).store.spsData = some 16 ∧
    (paramSetPass (scenarioC ++ [0, 0, 0, 1]) 0x67).store.spsSize = 0 ∧
    (scenarioC ++ [0, 0, 0, 1]).length = 16 ∧
    (∀ past, (paramSetPass scenarioB past).trace
      = [{ unit := { nalStart := 4, nalLength := 0 }, header := 0 },
         { unit := { nalStart := 8, nalLength := 2 }, header := 0x67 }]) ∧
    (∀ past, (paramSetPass scenarioB past).store.spsData = some 8 ∧
      (paramSetPass scenarioB past).store.spsSize = 2 ∧
      (paramSetPass scenarioB past).store.ppsData = none) := by
  refine ⟨fun past => rfl, rfl, by decide, by decide, by decide, by decide, rfl,
    fun past => rfl, fun past => ?_⟩
  have ht : (paramSetPass scenarioB past).trace
      = [{ unit := { nalStart := 4, nalLength := 0 }, header := 0 },
         { unit := { nalStart := 8, nalLength := 2 }, header := 0x67 }] := rfl
  rw [(paramSetPass_eq scenarioB past).2, ht]
  decide

/-- C10: the code at its failing input.  For every input `main` never takes the
return of line 181.  With a session that fails to open, on scenario A, `main`
goes on to the decode pass and calls `VTDecompressionSessionDecodeFrame` on the
first unit; when the decoder accepts the calls all the same, all four units are
submitted. -/
theorem session_failure_unchecked :
    (∀ libc svc past b, (main libc svc past b).outcome ≠ .session) ∧
    sessionFailsServices.sessionCreate ≠ noErr ∧
    (∀ libc, (main libc sessionFailsServices 0 scenarioA).outcome = .decodeFrame ∧
      (main libc sessionFailsServices 0 scenarioA).submitted = [[0, 0, 0, 2, 0x67, 0x42]] ∧
      (main libc { okServices with sessionCreate := -12913 } 0 scenarioA).outcome
        = .goodbye ∧
      (main libc { okServices with sessionCreate := -12913 } 0 scenarioA).submitted.length
        = 4) := by
  refine ⟨?_, by decide, ?_⟩
  · intro libc svc past b
    refine main_cases libc svc past b (fun r => r.outcome ≠ .session) ?_ ?_ ?_ ?_
    · intro _; simp
    · intro _ _; simp
    · intro _ _ _; simp
    · intro _ _ _ h
      have := decodePass_outcome svc (svc.sessionCreate == noErr) b
      simp only at h
      rw [h] at this
      simp at this
  · intro libc
    obtain ⟨h1, _, _, _, h5, _⟩ := main_libc libc sessionFailsServices 0 scenarioA
    obtain ⟨g1, _, _, _, g5, _⟩ :=
      main_libc libc { okServices with sessionCreate := -12913 } 0 scenarioA
    rw [h1, h5, g1, g5]
    decide

/-- C9 fails as stated: for the picture of height 3 with strides 4 the callback
appends 12 luma bytes and then 6 chroma bytes, not `4 * (3 / 2) = 4`, and 6 is
not a whole number of 4-byte rows. -/
theorem chroma_count_odd_height :
    (decompressionOutputCallback noErr oddImage true []).length = 4 * 3 + 6 ∧
    (decompressionOutputCallback noErr oddImage true []).length
      ≠ oddImage.bytesPerRowY * oddImage.height
        + oddImage.bytesPerRowUV * (oddImage.height / 2) ∧
    ((decompressionOutputCallback noErr oddImage true []).length
      - oddImage.bytesPerRowY * oddImage.height) % oddImage.bytesPerRowUV ≠ 0 := by
  decide

/-- C9, amended: with a failure status the callback leaves the output unchanged.
With status `noErr`, when `output.raw` opens and the two products fit in
`size_t`, it appends the first `sY * h` bytes of the luma plane and then the
first `(sUV * h) / 2` bytes of the chroma plane; for even `h` that count is
`sUV * (h / 2)`, a whole number of rows. -/
theorem callback_appends (status : OSStatus) (img : ImageBuffer) (fileOpens : Bool)
    (output : List Nat) :
    (status ≠ noErr → decompressionOutputCallback status img fileOpens output = output) ∧
    (status = noErr → fileOpens = true → img.bytesPerRowY * img.height < 2 ^ 64 →
      img.bytesPerRowUV * img.height < 2 ^ 64 →
      decompressionOutputCallback status img fileOpens output
        = output ++ (List.range (img.bytesPerRowY * img.height)).map img.planeY
            ++ (List.range (img.bytesPerRowUV * img.height / 2)).map img.planeUV ∧
      (decompressionOutputCallback status img fileOpens output).length
        = output.length + img.bytesPerRowY * img.height + img.bytesPerRowUV * img.height / 2 ∧
      (img.height % 2 = 0 →
        img.bytesPerRowUV * img.height / 2 = img.bytesPerRowUV * (img.height / 2))) := by
  constructor
  · intro h
    simp [decompressionOutputCallback, h]
  · intro h hf hy huv
    have e : decompressionOutputCallback status img fileOpens output
        = output ++ (List.range (img.bytesPerRowY * img.height)).map img.planeY
            ++ (List.range (img.bytesPerRowUV * img.height / 2)).map img.planeUV := by
      simp only [decompressionOutputCallback, h, hf, ne_eq, not_true_eq_false, if_false,
        if_true, fwrite, Nat.mod_eq_of_lt hy, Nat.mod_eq_of_lt huv]
    refine ⟨e, ?_, ?_⟩
    · rw [e]
      simp only [List.length_append, List.length_map, List.length_range]
    · intro hev
      exact Nat.mul_div_assoc _ (Nat.dvd_of_mod_eq_zero hev)

theorem callback_appends_witness :
    (noErr : OSStatus) = noErr ∧ evenImage.bytesPerRowUV * evenImage.height < 2 ^ 64 ∧
    (decompressionOutputCallback noErr evenImage true []).length
      = ([] : List Nat).length + evenImage.bytesPerRowY * evenImage.height
        + evenImage.bytesPerRowUV * evenImage.height / 2 :=
  ⟨rfl, by decide,
    ((callback_appends noErr evenImage true []).2 rfl rfl (by decide) (by decide)).2.1⟩
theorem scanLoop_mem_end (b : List Nat) : ∀ (fuel i : Nat) (u : NalUnit),
    u ∈ scanLoop b fuel i →
    u.nalStart + u.nalLength = b.length ∨ startAt b (u.nalStart + u.nalLength) = true := by
  intro fuel
  induction fuel with
  | zero => intro i u hu; simp [scanLoop] at hu
  | succ fuel ih =>
    intro i u hu
    by_cases hi : i < b.length
    · by_cases hs : startAt b i = true
      · have hle := startAt_le b i hs
        obtain ⟨g1, g2, g3, _⟩ := unitEnd_spec b i hle
        rw [scanLoop_succ_start b fuel i hs] at hu
        rcases List.mem_cons.1 hu with rfl | hu
        · simp only [unitAt]
          rw [show i + (unitEnd b i - i) = unitEnd b i by omega]
          exact g3
        · exact ih _ u hu
      · simp only [Bool.not_eq_true] at hs
        rw [scanLoop_succ_skip b fuel i hi hs] at hu
        exact ih _ u hu
    · rw [scanLoop_end b _ i (by omega)] at hu
      simp at hu

theorem byte_at_start (b : List Nat) (j : Nat) (h : startAt b j = true) : b[j]? = some 0 := by
  obtain ⟨t, ht⟩ := (startAt_iff b j).1 h
  have h0 : (b.drop j)[0]? = some 0 := by rw [ht]; rfl
  rw [List.getElem?_drop] at h0
  exact h0

theorem nalType_iff (b : List Nat) (past fuel i : Nat) (u : NalUnit)
    (hu : u ∈ scanLoop b fuel i) (hin : u.nalStart + 4 < b.length) (t : Nat) (ht : t ≠ 0) :
    (paramView b past u).nalType = t ↔ payloadType b (paramView b past u).unit = some t := by
  obtain ⟨_, h4, hle, _⟩ := scanLoop_mem b fuel i u hu
  have hx : b[u.nalStart + 4]? = some (b[u.nalStart + 4]) := List.getElem?_eq_getElem hin
  have hhd : readHeader b past (u.nalStart + 4) = b[u.nalStart + 4] := by
    simp only [readHeader, List.getD_eq_getElem?_getD, hx, Option.getD_some]
  simp only [Scanned.nalType, payloadType, NalUnit.bytes, paramView, hhd]
  by_cases hz : u.nalLength - 4 = 0
  · have hst : startAt b (u.nalStart + 4) = true := by
      rcases scanLoop_mem_end b fuel i u hu with h | h
      · omega
      · rw [show u.nalStart + u.nalLength = u.nalStart + 4 by omega] at h
        exact h
    have h0 := byte_at_start b _ hst
    rw [hx] at h0
    simp only [Option.some.injEq] at h0
    rw [hz, h0]
    simp only [List.take_zero, List.head?_nil, Option.map_none', reduceCtorEq, iff_false]
    intro h
    apply ht
    rw [← h]
    decide
  · rw [List.head?_take, if_neg hz, List.head?_drop, hx]
    simp

theorem exists_type_iff (b : List Nat) (past : Nat) (t : Nat) (ht : t ≠ 0)
    (hin : ∀ s ∈ (paramSetPass b past).trace, s.unit.nalStart < b.length) (k : Nat) :
    (∃ s ∈ (paramSetPass b past).trace.take k, s.nalType = t) ↔
      (∃ s ∈ (paramSetPass b past).trace.take k, payloadType b s.unit = some t) := by
  have key : ∀ s ∈ (paramSetPass b past).trace,
      (s.nalType = t ↔ payloadType b s.unit = some t) := by
    intro s hs
    have hb := hin s hs
    rw [(paramSetPass_eq b past).1] at hs
    obtain ⟨u, hu, rfl⟩ := List.mem_map.1 hs
    exact nalType_iff b past _ 0 u hu (by simpa [paramView] using hb) t ht
  constructor
  · rintro ⟨s, hs, h⟩
    exact ⟨s, hs, (key s (List.mem_of_mem_take hs)).1 h⟩
  · rintro ⟨s, hs, h⟩
    exact ⟨s, hs, (key s (List.mem_of_mem_take hs)).2 h⟩

/-- C6: the code at its failing input, and where the claim holds.  On the file
`00 00 00 01 67 42 00 00 00 01` the last unit is empty and begins at the end of
the file; when the byte after the buffer is `0x68`, `foundSpsPps` becomes true and
`main` builds the format description with an empty PPS, though no unit of the
file has type 8; when that byte is 0 it stays false.  On every file the final
variables are those of the state machine run over the units found, once true
`foundSpsPps` stays true, and `main` builds the format description exactly when
the final value is true.  On every file in which no unit begins at the end of
the file, after every number `k` of units `foundSpsPps` is true exactly when a
unit whose payload has type 7 and one whose payload has type 8 are among the
first `k`. -/
theorem foundSpsPps_state_machine :
    ((paramSetPass trailingStartCode 0x68).store.foundSpsPps = true ∧
      (∀ s ∈ (paramSetPass trailingStartCode 0x68).trace,
        payloadType trailingStartCode s.unit ≠ some NAL_PPS) ∧
      (∀ libc, (main libc okServices 0x68 trailingStartCode).formatDescriptionCall
        = some ([0x67, 0x42], [])) ∧
      (paramSetPass trailingStartCode 0).store.foundSpsPps = false) ∧
    (∀ (b : List Nat) (past : Nat),
      (paramSetPass b past).store
        = (paramSetPass b past).trace.foldl (fun st s => st.record s.header s.unit)
            ParamSets.init ∧
      (∀ k k2, k ≤ k2 →
        (((paramSetPass b past).trace.take k).foldl
            (fun st s => st.record s.header s.unit) ParamSets.init).foundSpsPps = true →
        (((paramSetPass b past).trace.take k2).foldl
            (fun st s => st.record s.header s.unit) ParamSets.init).foundSpsPps = true) ∧
      (∀ libc svc, ((main libc svc past b).formatDescriptionCall.isSome = true ↔
        (paramSetPass b past).store.foundSpsPps = true)) ∧
      ((∀ s ∈ (paramSetPass b past).trace, s.unit.nalStart < b.length) →
        ∀ k, (((paramSetPass b past).trace.take k).foldl
            (fun st s => st.record s.header s.unit) ParamSets.init).foundSpsPps = true ↔
          (∃ s ∈ (paramSetPass b past).trace.take k, payloadType b s.unit = some NAL_SPS) ∧
          (∃ s ∈ (paramSetPass b past).trace.take k, payloadType b s.unit = some NAL_PPS))) := by
  refine ⟨⟨by decide, by decide, fun libc => ?_, by decide⟩, fun b past => ⟨?_, ?_, ?_, ?_⟩⟩
  · rw [(main_libc libc okServices 0x68 trailingStartCode).2.2.1]
    decide
  · exact (paramSetPass_eq b past).2
  · intro k k2 hk hf
    rw [found_iff] at hf ⊢
    obtain ⟨⟨s, hs, h7⟩, ⟨t, ht, h8⟩⟩ := hf
    exact ⟨⟨s, mem_take_of_le _ k k2 hk s hs, h7⟩, ⟨t, mem_take_of_le _ k k2 hk t ht, h8⟩⟩
  · intro libc svc
    refine main_cases libc svc past b
      (fun r => r.formatDescriptionCall.isSome = true ↔
        (paramSetPass b past).store.foundSpsPps = true) ?_ ?_ ?_ ?_
    · intro h; simp [h]
    · intro h _; simp [h]
    · intro h _ _; simp [h]
    · intro h _ _; simp [h]
  · intro hin k
    rw [found_iff, exists_type_iff b past 7 (by decide) hin k,
      exists_type_iff b past 8 (by decide) hin k]
    rfl

/-- C7 fails as stated: on scenario B (an SPS and no PPS), when the second
`fclose(file)` returns, `main` takes the return of line 144 and the exit status
is 0. -/
theorem fatal_error_exit_zero :
    (main .returns okServices 0 scenarioB).outcome = .noSpsPps ∧
    ¬ (main .returns okServices 0 scenarioB).exitStatus ≠ 0 := by
  decide

/-- C7, amended: the exit status is the same on every path of `main`, after a
fatal error and after a complete run: it is what `free(buffer); fclose(file);
return 0;` gives, 0 when the second `fclose` returns and the status the process
is ended with otherwise.  Each fatal error ends the run where it occurs: without
SPS and PPS, and when the parameter sets are rejected, nothing is submitted; a
unit whose length rewrite fails is the last unit found and is not submitted; a
refused submission is the last one. -/
theorem main_exit_status (libc : FcloseAgain) (svc : Services) (past : Nat) (b : List Nat) :
    (main libc svc past b).exitStatus = fcloseThenReturn libc 0 ∧
    (libc = .returns → (main libc svc past b).exitStatus = 0) ∧
    (∀ status, libc = .killed status → (main libc svc past b).exitStatus = status) ∧
    (∀ svc2 past2 b2,
      (main libc svc2 past2 b2).exitStatus = (main libc svc past b).exitStatus) ∧
    ((paramSetPass b past).store.foundSpsPps = false →
      (main libc svc past b).outcome = .noSpsPps ∧ (main libc svc past b).submitted = []) ∧
    ((paramSetPass b past).store.foundSpsPps = true →
      svc.formatDescriptionCreate (spsBytes b (paramSetPass b past).store)
        (ppsBytes b (paramSetPass b past).store) ≠ noErr →
      (main libc svc past b).outcome = .formatDescription ∧
      (main libc svc past b).submitted = []) ∧
    (∀ j u, (main libc svc past b).units[j]? = some u →
      svc.blockBufferCreate j (u.bytes b) = noErr →
      svc.replaceDataBytes j (u.bytes b) ≠ noErr →
      (main libc svc past b).units.length = j + 1 ∧
      (main libc svc past b).submitted.length = j ∧
      (main libc svc past b).outcome = .replaceDataBytes) ∧
    (∀ j au, (main libc svc past b).submitted[j]? = some au →
      svc.decodeFrame (svc.sessionCreate == noErr) j au ≠ noErr →
      (main libc svc past b).submitted.length = j + 1 ∧
      (main libc svc past b).outcome = .decodeFrame) := by
  have hex : ∀ svc past b, (main libc svc past b).exitStatus = fcloseThenReturn libc 0 :=
    fun svc past b => main_cases libc svc past b
      (fun r => r.exitStatus = fcloseThenReturn libc 0) (fun _ => rfl) (fun _ _ => rfl)
      (fun _ _ _ => rfl) (fun _ _ _ => rfl)
  refine ⟨hex svc past b, ?_, ?_, ?_, ?_, ?_, ?_, ?_⟩
  · intro h
    rw [hex, h]
    rfl
  · intro status h
    rw [hex, h]
    rfl
  · intro svc2 past2 b2
    rw [hex, hex]
  · intro h
    rw [main_noSpsPps libc svc past b h]
    exact ⟨rfl, rfl⟩
  · intro h hfd
    rw [main_formatDescription libc svc past b h hfd]
    exact ⟨rfl, rfl⟩
  · refine main_cases libc svc past b (fun r => ∀ j u, r.units[j]? = some u →
      svc.blockBufferCreate j (u.bytes b) = noErr →
      svc.replaceDataBytes j (u.bytes b) ≠ noErr →
      r.units.length = j + 1 ∧ r.submitted.length = j ∧
      r.outcome = .replaceDataBytes) ?_ ?_ ?_ ?_
    · intro _ j u hj; simp at hj
    · intro _ _ j u hj; simp at hj
    · intro _ _ _ j u hj; simp at hj
    · intro _ _ _ j u hj h1 h2
      have := (decodeLoop_abort svc (svc.sessionCreate == noErr) b b.length 0 b 0 rfl rfl).2.2
        j u hj (by rw [Nat.zero_add]; exact h1) (by rw [Nat.zero_add]; exact h2)
      exact this
  · refine main_cases libc svc past b (fun r => ∀ j au, r.submitted[j]? = some au →
      svc.decodeFrame (svc.sessionCreate == noErr) j au ≠ noErr →
      r.submitted.length = j + 1 ∧ r.outcome = .decodeFrame) ?_ ?_ ?_ ?_
    · intro _ j u hj; simp at hj
    · intro _ _ j u hj; simp at hj
    · intro _ _ _ j u hj; simp at hj
    · intro _ _ _ j au hj h1
      have := (decodeLoop_abort svc (svc.sessionCreate == noErr) b b.length 0 b 0 rfl rfl).2.1
        j au hj (by rw [Nat.zero_add]; exact h1)
      exact this

theorem main_exit_status_witness :
    (FcloseAgain.killed 134 = .killed 134) ∧
    (main (.killed 134) okServices 0 scenarioA).exitStatus = 134 ∧
    (paramSetPass scenarioB 0).store.foundSpsPps = false ∧
    (main (.killed 134) okServices 0 scenarioB).outcome = .noSpsPps :=
  ⟨rfl, (main_exit_status (.killed 134) okServices 0 scenarioA).2.2.1 134 rfl, by decide,
    ((main_exit_status (.killed 134) okServices 0 scenarioB).2.2.2.2.1 (by decide)).1⟩

end AppleVideo
